import Mathlib

/-!
Verification development for the NoisyRollout evaluation entry point
(`eval/main.py`).  The orchestrator (`main`) is embedded as a pure function
over an explicit environment (dataset loaders, inference engine, file
system), producing a trace of events, the written report files, the
resulting directory set, and an outcome mirroring the process exit.
-/

set_option autoImplicit false

deriving instance DecidableEq for Except

namespace NoisyRollout

/-- One benchmark question instance (spec data model: Sample). -/
structure Sample where
  sample_id : String
  image : String
  question : String
  answer : String
  category : Option String
deriving DecidableEq, Repr

/-- A model-ready prompt derived from a Sample. -/
structure Prompt where
  text : String
  image : String
deriving DecidableEq, Repr

/-- Side record aligned by position with a Prompt, carrying the
ground truth and category past the inference boundary. -/
structure Metadata where
  sample_id : String
  gt : String
  category : Option String
deriving DecidableEq, Repr

/-- One structured result per Sample after processing. -/
structure ResultR where
  sample_id : String
  generation : String
  predicted : String
  ground_truth : String
  correct : Bool
  category : Option String
deriving DecidableEq, Repr

/-- Aggregate metrics over a dataset's results: overall accuracy plus an
optional per-category breakdown. -/
structure Metrics where
  accuracy : Rat
  sub_accuracies : Option (List (String × Rat))
deriving DecidableEq, Repr

/-- The parsed CLI arguments of `parse_arguments` in `eval/main.py`,
one field per `add_argument` call, in source order. -/
structure Args where
  model : String
  output_dir : String
  max_tokens : Int
  min_pixels : Int
  max_pixels : Int
  max_model_len : Int
  temperature : Rat
  top_p : Rat
  repetition_penalty : Rat
  tensor_parallel_size : Int
  eval_threads : Int
  system_prompt : String
  datasets : String
  data_path : String
deriving DecidableEq, Repr

/-- The configuration with which the vLLM engine is constructed at
`eval/main.py` lines 91-97 (`LLM(...)` keyword arguments). -/
structure LLMCfg where
  model : String
  tensor_parallel_size : Int
  dtype : String
  gpu_memory_utilization : Rat
  max_model_len : Int
deriving DecidableEq, Repr

/-- The sampling configuration built at `eval/main.py` lines 100-105
(`SamplingParams(...)`): exactly these four fields. -/
structure SamplingCfg where
  temperature : Rat
  top_p : Rat
  max_tokens : Int
  repetition_penalty : Rat
deriving DecidableEq, Repr

/-- `LLM(model=..., tensor_parallel_size=..., dtype=torch.bfloat16,
gpu_memory_utilization=0.7, max_model_len=...)`. -/
def mkLLM (a : Args) : LLMCfg :=
  { model := a.model
    tensor_parallel_size := a.tensor_parallel_size
    dtype := "bfloat16"
    gpu_memory_utilization := mkRat 7 10
    max_model_len := a.max_model_len }

/-- `SamplingParams(temperature=..., top_p=..., max_tokens=...,
repetition_penalty=...)`. -/
def mkSamplingParams (a : Args) : SamplingCfg :=
  { temperature := a.temperature
    top_p := a.top_p
    max_tokens := a.max_tokens
    repetition_penalty := a.repetition_penalty }

/-- The report object built at `eval/main.py` lines 123-127: the dict
literal with keys `results`, `metrics`, `config`. -/
structure Report where
  results : List ResultR
  metrics : Metrics
  config : Args
deriving DecidableEq, Repr

/-- Errors the run can die with (uncaught Python exceptions). -/
inductive EvalErr where
  | dataLoadErr (name : String) (msg : String)
  | genErr (name : String) (msg : String)
  | ioErr (path : String)
deriving DecidableEq, Repr

/-- Observable events of a run, in program order. -/
inductive Event where
  | makedirsE (path : String)
  | loadCallE (name : String)
  | noopNoticeE
  | modelInitE (cfg : LLMCfg)
  | generateE (cfg : LLMCfg) (name : String) (prompts : List Prompt) (sp : SamplingCfg)
  | writeE (path : String) (report : Report)
  | doneE (dir : String)
deriving DecidableEq, Repr

def Event.isMkdir : Event → Bool
  | .makedirsE _ => true
  | _ => false

def Event.isLoad : Event → Bool
  | .loadCallE _ => true
  | _ => false

def Event.isInit : Event → Bool
  | .modelInitE _ => true
  | _ => false

def Event.isGen : Event → Bool
  | .generateE _ _ _ _ => true
  | _ => false

def Event.isWrite : Event → Bool
  | .writeE _ _ => true
  | _ => false

/-- The external world: dataset loaders (which may raise `DataLoadError`),
the inference engine, and whether a report write succeeds. -/
structure Env where
  load : String → String → Except String (List Sample)
  generate : LLMCfg → List Prompt → SamplingCfg → Except String (List String)
  writeOk : String → Bool

/-- The six recognized dataset names, in the order the `all` expansion
lists them at `eval/main.py` lines 52-54. -/
def datasetNames : List String :=
  ["geo3k", "wemath", "mathvista", "mathverse", "mathvision", "hallubench"]

/-- Python `str.split(",")` on the character list: split at every comma,
keeping empty pieces (`"".split(",") == [""]`). -/
def splitCommaAux : List Char → List Char → List String
  | [], cur => [String.mk cur.reverse]
  | c :: rest, cur =>
    if c = ',' then String.mk cur.reverse :: splitCommaAux rest []
    else splitCommaAux rest (c :: cur)

/-- Python `s.split(",")`. -/
def pySplitComma (s : String) : List String :=
  splitCommaAux s.data []

/-- `args.datasets.split(",") if args.datasets != "all" else [...]`. -/
def datasetsToEval (a : Args) : List String :=
  if a.datasets ≠ "all" then pySplitComma a.datasets else datasetNames

/-- Keys of an association list (a Python dict modelled with insertion
order). -/
def keysOf {α : Type} (d : List (String × α)) : List String :=
  d.map Prod.fst

/-- Python `d[k] = v` on an insertion-ordered dict: overwrite in place when
the key exists, append otherwise. -/
def dictInsert {α : Type} (d : List (String × α)) (k : String) (v : α) :
    List (String × α) :=
  if k ∈ keysOf d then d.map (fun p => if p.1 = k then (k, v) else p)
  else d ++ [(k, v)]

/-- Characters up to (excluding) the next closing brace. -/
def takeUntilClose : List Char → List Char
  | [] => []
  | c :: rest => if c = '\x7d' then [] else c :: takeUntilClose rest

/-- Scan for the `\boxed` marker and return its braced content. -/
def findBoxed : List Char → Option (List Char)
  | [] => none
  | c :: rest =>
    if ['\\', 'b', 'o', 'x', 'e', 'd', '\x7b'].isPrefixOf (c :: rest) then
      some (takeUntilClose (List.drop 7 (c :: rest)))
    else findBoxed rest

/-- Modelled from the spec: answer extraction inside `process_outputs` of
`utils/processing.py`, which is not under src/.  Per spec section 4.4 it
returns the content of the final-answer marker (the boxed value) when
present, and a defined not-found sentinel (the empty string) otherwise. -/
def extractAnswer (g : String) : String :=
  match findBoxed g.data with
  | some cs => String.mk cs
  | none => ""

def isSpaceChar (c : Char) : Bool :=
  decide (c = ' ' ∨ c = '\n' ∨ c = '\t' ∨ c = '\r')

def dropWS : List Char → List Char
  | [] => []
  | c :: rest => if isSpaceChar c then dropWS rest else c :: rest

/-- Modelled from the spec: normalization inside the equivalence check of
`utils/processing.py` (not under src/): case and surrounding whitespace
are normalized before comparison (spec section 4.4, step 2). -/
def normalizeAnswer (s : String) : String :=
  let lowered := s.data.map Char.toLower
  String.mk (dropWS (dropWS lowered.reverse).reverse)

/-- Modelled from the spec: the equivalence judgment of
`utils/processing.py` (not under src/): candidate and ground truth match
after normalization (spec section 4.4, step 3). -/
def checkEquiv (cand gt : String) : Bool :=
  normalizeAnswer cand = normalizeAnswer gt

/-- Modelled from the spec: `prepare_prompts` of `utils/processing.py`
(not under src/).  Per spec section 4.2 it produces one Prompt and one
aligned Metadata record per Sample, preserving order: the prompt combines
the system instruction with the question and carries the image. -/
def prepare_prompts (name : String) (samples : List Sample) (a : Args) :
    List Prompt × List Metadata :=
  let _ := name
  (samples.map (fun s => { text := a.system_prompt ++ "\n" ++ s.question
                           image := s.image }),
   samples.map (fun s => { sample_id := s.sample_id
                           gt := s.answer
                           category := s.category }))

/-- Modelled from the spec: `process_outputs` of `utils/processing.py`
(not under src/).  Per spec section 4.4 it produces one Result per
(generation, metadata) pair, in input order; a parse failure yields an
incorrect Result rather than an error.  The worker-pool size does not
affect the value produced (order-stable reassembly, spec section 5). -/
def process_outputs (outputs : List String) (metadata : List Metadata)
    (threads : Int) : List ResultR :=
  let _ := threads
  List.zipWith
    (fun o m =>
      { sample_id := m.sample_id
        generation := o
        predicted := extractAnswer o
        ground_truth := m.gt
        correct := checkEquiv (extractAnswer o) m.gt
        category := m.category })
    outputs metadata

/-- Accuracy of a result list: correct count over total, 0 for the empty
list (spec section 4.5: no division by zero). -/
def calcAccuracy (rs : List ResultR) : Rat :=
  if rs.length = 0 then 0
  else mkRat (rs.countP (fun r => r.correct)) rs.length

/-- The distinct category labels occurring in a result list, in order of
first occurrence. -/
def categoriesOf (rs : List ResultR) : List String :=
  (rs.filterMap (fun r => r.category)).foldl
    (fun acc c => if c ∈ acc then acc else acc ++ [c]) []

/-- Modelled from the spec: `calculate_metrics` of `utils/processing.py`
(not under src/).  Per spec section 4.5 it returns overall accuracy and,
when any result carries a category label, a per-category accuracy mapping
(the `sub_accuracies` key, spec section 6). -/
def calculate_metrics (rs : List ResultR) : Metrics :=
  let cats := categoriesOf rs
  { accuracy := calcAccuracy rs
    sub_accuracies :=
      if cats.isEmpty then none
      else some (cats.map (fun c =>
        (c, calcAccuracy (rs.filter (fun r => r.category = some c))))) }

/-- `os.path.join(args.output_dir, f"{dataset_name}.json")`. -/
def outputPath (a : Args) (name : String) : String :=
  a.output_dir ++ "/" ++ name ++ ".json"

/-- `os.makedirs(p, exist_ok=...)` on a directory set: raises
`FileExistsError` when the directory exists and `exist_ok` is false. -/
def osMakedirs (dirs : List String) (p : String) (exist_ok : Bool) :
    Except String (List String) :=
  if p ∈ dirs then
    (if exist_ok then .ok dirs else .error "FileExistsError")
  else .ok (dirs ++ [p])

/-- Run state: the event trace and the report files written so far. -/
structure St where
  events : List Event
  files : List (String × Report)
deriving DecidableEq, Repr

/-- The dataset loading loop of `eval/main.py` lines 60-83: for each
requested name, if it is one of the six recognized datasets, call its
loader (a raised `DataLoadError` propagates and aborts the run) and store
the samples in the `all_samples` dict; unrecognized names fall through
the `elif` chain with no effect. -/
def loadPhase (env : Env) (dp : String) :
    St → List (String × List Sample) → List String →
    Except (St × EvalErr) (St × List (String × List Sample))
  | st, acc, [] => .ok (st, acc)
  | st, acc, n :: rest =>
    if n ∈ datasetNames then
      match env.load n dp with
      | .ok samples =>
        loadPhase env dp { st with events := st.events ++ [.loadCallE n] }
          (dictInsert acc n samples) rest
      | .error msg =>
        .error ({ st with events := st.events ++ [.loadCallE n] },
                .dataLoadErr n msg)
    else loadPhase env dp st acc rest

/-- The report object written for one dataset, given the raw generations
(`eval/main.py` lines 118-127). -/
def reportOf (a : Args) (name : String) (samples : List Sample)
    (outputs : List String) : Report :=
  let results := process_outputs outputs (prepare_prompts name samples a).2
    a.eval_threads
  { results := results
    metrics := calculate_metrics results
    config := a }

/-- One iteration of the per-dataset loop of `eval/main.py` lines
112-140: build prompts, call the engine (a generation failure aborts),
process outputs, compute metrics, and write the JSON report (a write
failure aborts). -/
def processOne (env : Env) (a : Args) (llm : LLMCfg) (sp : SamplingCfg)
    (st : St) (name : String) (samples : List Sample) :
    Except (St × EvalErr) St :=
  let prompts := (prepare_prompts name samples a).1
  let st1 : St := { st with events := st.events ++ [.generateE llm name prompts sp] }
  match env.generate llm prompts sp with
  | .error msg => .error (st1, .genErr name msg)
  | .ok outputs =>
    let report := reportOf a name samples outputs
    let path := outputPath a name
    if env.writeOk path then
      .ok { st1 with
            events := st1.events ++ [.writeE path report]
            files := dictInsert st1.files path report }
    else .error (st1, .ioErr path)

/-- The per-dataset loop of `eval/main.py` lines 112-140, over the
entries of `all_samples` in insertion order. -/
def runLoop (env : Env) (a : Args) (llm : LLMCfg) (sp : SamplingCfg) :
    St → List (String × List Sample) → Except (St × EvalErr) St
  | st, [] => .ok st
  | st, e :: rest =>
    match processOne env a llm sp st e.1 e.2 with
    | .ok st1 => runLoop env a llm sp st1 rest
    | .error err => .error err

/-- Outcome of a run: normal completion, the empty no-op return at
`eval/main.py` lines 85-87, or death by an uncaught exception. -/
inductive Outcome where
  | ok
  | noop
  | err (e : EvalErr)
deriving DecidableEq, Repr

/-- The process exit code for each outcome: a plain `return` from `main`
exits with 0; an uncaught exception exits with 1. -/
def exitCode : Outcome → Nat
  | .ok => 0
  | .noop => 0
  | .err _ => 1

/-- Initial run state: the `os.makedirs` call at `eval/main.py` line 49
is the first effect. -/
def initSt (a : Args) : St :=
  { events := [.makedirsE a.output_dir], files := [] }

/-- The `main` function of `eval/main.py`, over an environment and a
pre-existing directory set: create the output directory, load the
requested datasets, return early when none was stored, otherwise build
the engine once and run the per-dataset loop. -/
def main (env : Env) (fs0 : List String) (a : Args) :
    St × List String × Outcome :=
  match osMakedirs fs0 a.output_dir true with
  | .error _ => (⟨[], []⟩, fs0, .err (.ioErr a.output_dir))
  | .ok dirs =>
    match loadPhase env a.data_path (initSt a) [] (datasetsToEval a) with
    | .error (st, e) => (st, dirs, .err e)
    | .ok (st, allSamples) =>
      if allSamples.isEmpty then
        ({ st with events := st.events ++ [.noopNoticeE] }, dirs, .noop)
      else
        let llm := mkLLM a
        let sp := mkSamplingParams a
        let st1 : St := { st with events := st.events ++ [.modelInitE llm] }
        match runLoop env a llm sp st1 allSamples with
        | .error (st2, e) => (st2, dirs, .err e)
        | .ok st2 =>
          ({ st2 with events := st2.events ++ [.doneE a.output_dir] },
           dirs, .ok)

/-! ### Dictionary lemmas -/

theorem keysOf_dictInsert {α : Type} (d : List (String × α)) (k : String) (v : α) :
    keysOf (dictInsert d k v) =
      if k ∈ keysOf d then keysOf d else keysOf d ++ [k] := by
  by_cases h : k ∈ keysOf d
  · rw [dictInsert, if_pos h, if_pos h]
    simp only [keysOf, List.map_map]
    refine List.map_congr_left ?_
    intro p _
    by_cases hp : p.1 = k
    · simp [Function.comp, hp]
    · simp [Function.comp, hp]
  · rw [dictInsert, if_neg h, if_neg h]
    simp [keysOf]

theorem mem_dictInsert {α : Type} {d : List (String × α)} {k : String} {v : α}
    {p : String × α} (h : p ∈ dictInsert d k v) : p ∈ d ∨ p = (k, v) := by
  unfold dictInsert at h
  split at h
  · rcases List.mem_map.mp h with ⟨q, hq, he⟩
    by_cases hqk : q.1 = k
    · right
      simp only [if_pos hqk] at he
      exact he.symm
    · left
      simp only [if_neg hqk] at he
      exact he ▸ hq
  · rcases List.mem_append.mp h with h1 | h1
    · exact Or.inl h1
    · exact Or.inr (List.mem_singleton.mp h1)

theorem dictInsert_of_not_mem {α : Type} {d : List (String × α)} {k : String}
    (v : α) (h : k ∉ keysOf d) : dictInsert d k v = d ++ [(k, v)] := by
  simp [dictInsert, h]

theorem mem_keys_dictInsert_self {α : Type} (d : List (String × α)) (k : String)
    (v : α) : k ∈ keysOf (dictInsert d k v) := by
  rw [keysOf_dictInsert]
  split <;> simp_all

theorem nodup_keys_dictInsert {α : Type} {d : List (String × α)} (k : String)
    (v : α) (h : (keysOf d).Nodup) : (keysOf (dictInsert d k v)).Nodup := by
  rw [keysOf_dictInsert]
  split
  · exact h
  · next hk =>
    rw [List.nodup_append]
    refine ⟨h, List.nodup_singleton k, ?_⟩
    intro a ha hb
    rw [List.mem_singleton] at hb
    exact hk (hb ▸ ha)

/-! ### Which names end up as dict keys -/

/-- Boolean form of dataset-name recognition (the `elif` chain at
`eval/main.py` lines 61-81 matches exactly the six names). -/
def recognized (n : String) : Bool :=
  decide (n ∈ datasetNames)

@[simp] theorem recognized_iff {n : String} :
    recognized n = true ↔ n ∈ datasetNames := by
  simp [recognized]

/-- Pure description of how the dict key list evolves over the loading
loop when every recognized load succeeds. -/
def loadKeys (ks : List String) : List String → List String
  | [] => ks
  | n :: rest =>
    if n ∈ datasetNames then
      loadKeys (if n ∈ ks then ks else ks ++ [n]) rest
    else loadKeys ks rest

/-- Deduplication keeping the first occurrence of each element. -/
def firstOccur : List String → List String
  | [] => []
  | n :: rest => n :: (firstOccur rest).filter (fun m => decide (m ≠ n))

theorem loadKeys_mono : ∀ (names ks : List String) {x : String},
    x ∈ ks → x ∈ loadKeys ks names := by
  intro names
  induction names with
  | nil => intro ks x hx; simpa [loadKeys] using hx
  | cons n rest ih =>
    intro ks x hx
    rw [loadKeys]
    split
    · split
      · exact ih ks hx
      · exact ih (ks ++ [n]) (List.mem_append.mpr (Or.inl hx))
    · exact ih ks hx

theorem mem_loadKeys : ∀ (names ks : List String) {x : String},
    x ∈ loadKeys ks names → x ∈ ks ∨ (x ∈ names ∧ x ∈ datasetNames) := by
  intro names
  induction names with
  | nil => intro ks x hx; exact Or.inl (by simpa [loadKeys] using hx)
  | cons n rest ih =>
    intro ks x hx
    rw [loadKeys] at hx
    split at hx
    · next hrec =>
      split at hx
      · rcases ih ks hx with h | ⟨h1, h2⟩
        · exact Or.inl h
        · exact Or.inr ⟨List.mem_cons_of_mem n h1, h2⟩
      · rcases ih (ks ++ [n]) hx with h | ⟨h1, h2⟩
        · rcases List.mem_append.mp h with h | h
          · exact Or.inl h
          · exact Or.inr ⟨List.mem_singleton.mp h ▸ List.mem_cons_self n rest,
              List.mem_singleton.mp h ▸ hrec⟩
        · exact Or.inr ⟨List.mem_cons_of_mem n h1, h2⟩
    · rcases ih ks hx with h | ⟨h1, h2⟩
      · exact Or.inl h
      · exact Or.inr ⟨List.mem_cons_of_mem n h1, h2⟩

theorem mem_loadKeys_of_mem : ∀ (names ks : List String) {n : String},
    n ∈ names → n ∈ datasetNames → n ∈ loadKeys ks names := by
  intro names
  induction names with
  | nil => intro ks n hn; exact absurd hn (List.not_mem_nil n)
  | cons m rest ih =>
    intro ks n hn hrec
    rw [loadKeys]
    rcases List.mem_cons.mp hn with h | h
    · subst h
      rw [if_pos hrec]
      refine loadKeys_mono rest _ ?_
      split
      · assumption
      · exact List.mem_append.mpr (Or.inr (List.mem_singleton_self n))
    · split
      · split <;> exact ih _ h hrec
      · exact ih _ h hrec

theorem loadKeys_nodup : ∀ (names ks : List String),
    ks.Nodup → (loadKeys ks names).Nodup := by
  intro names
  induction names with
  | nil => intro ks h; simpa [loadKeys] using h
  | cons n rest ih =>
    intro ks h
    rw [loadKeys]
    split
    · split
      · exact ih ks h
      · next hk =>
        refine ih (ks ++ [n]) ?_
        rw [List.nodup_append]
        refine ⟨h, List.nodup_singleton n, ?_⟩
        intro a ha hb
        rw [List.mem_singleton] at hb
        exact hk (hb ▸ ha)
    · exact ih ks h

theorem filterNotMem_of_mem {F ks : List String} {n : String} (hk : n ∈ ks) :
    (F.filter (fun m => decide (m ≠ n))).filter (fun m => decide (m ∉ ks)) =
      F.filter (fun m => decide (m ∉ ks)) := by
  rw [List.filter_filter]
  refine List.filter_congr ?_
  intro a _
  by_cases hak : a ∈ ks
  · simp [hak]
  · have han : a ≠ n := fun he => hak (he ▸ hk)
    simp [hak, han]

theorem filterNotMemAppend {F ks : List String} {n : String} (_hk : n ∉ ks) :
    F.filter (fun m => decide (m ∉ ks ++ [n])) =
      (F.filter (fun m => decide (m ≠ n))).filter (fun m => decide (m ∉ ks)) := by
  rw [List.filter_filter]
  refine List.filter_congr ?_
  intro a _
  by_cases hak : a ∈ ks
  · simp [List.mem_append, hak]
  · by_cases han : a = n <;> simp [List.mem_append, hak, han]

theorem loadKeys_eq_firstOccur : ∀ (names ks : List String),
    loadKeys ks names =
      ks ++ (firstOccur (names.filter recognized)).filter
        (fun m => decide (m ∉ ks)) := by
  intro names
  induction names with
  | nil => intro ks; simp [loadKeys, firstOccur]
  | cons n rest ih =>
    intro ks
    rw [loadKeys]
    by_cases hrec : n ∈ datasetNames
    · rw [if_pos hrec]
      have hfil : (n :: rest).filter recognized = n :: rest.filter recognized := by
        simp [List.filter_cons, hrec]
      rw [hfil, firstOccur]
      by_cases hk : n ∈ ks
      · have h1 : (n :: (firstOccur (rest.filter recognized)).filter
            (fun m => decide (m ≠ n))).filter (fun m => decide (m ∉ ks)) =
            ((firstOccur (rest.filter recognized)).filter
              (fun m => decide (m ≠ n))).filter (fun m => decide (m ∉ ks)) := by
          simp [List.filter_cons, hk]
        rw [if_pos hk, ih ks, h1, filterNotMem_of_mem hk]
      · have h1 : (n :: (firstOccur (rest.filter recognized)).filter
            (fun m => decide (m ≠ n))).filter (fun m => decide (m ∉ ks)) =
            n :: ((firstOccur (rest.filter recognized)).filter
              (fun m => decide (m ≠ n))).filter (fun m => decide (m ∉ ks)) := by
          simp [List.filter_cons, hk]
        rw [if_neg hk, ih (ks ++ [n]), filterNotMemAppend hk, h1,
          List.append_assoc, List.singleton_append]
    · rw [if_neg hrec, ih ks]
      have hfil : (n :: rest).filter recognized = rest.filter recognized := by
        simp [List.filter_cons, hrec]
      rw [hfil]

/-! ### Loading-phase lemmas -/

theorem loadPhase_ok (env : Env) (dp : String) :
    ∀ (names : List String) (st st' : St)
      (acc acc' : List (String × List Sample)),
    loadPhase env dp st acc names = .ok (st', acc') →
      st'.events = st.events ++ (names.filter recognized).map Event.loadCallE
      ∧ st'.files = st.files
      ∧ keysOf acc' = loadKeys (keysOf acc) names
      ∧ (∀ p ∈ acc', p ∈ acc ∨ (p.1 ∈ datasetNames ∧ env.load p.1 dp = .ok p.2)) := by
  intro names
  induction names with
  | nil =>
    intro st st' acc acc' h
    rw [loadPhase] at h
    simp only [Except.ok.injEq, Prod.mk.injEq] at h
    obtain ⟨h1, h2⟩ := h
    subst h1
    subst h2
    exact ⟨by simp, rfl, by rw [loadKeys], fun p hp => Or.inl hp⟩
  | cons n rest ih =>
    intro st st' acc acc' h
    rw [loadPhase] at h
    by_cases hrec : n ∈ datasetNames
    · rw [if_pos hrec] at h
      cases hl : env.load n dp with
      | ok samples =>
        simp only [hl] at h
        obtain ⟨h1, h2, h3, h4⟩ := ih _ _ _ _ h
        refine ⟨?_, by simpa using h2, ?_, ?_⟩
        · rw [h1]
          simp [List.filter_cons, hrec, List.append_assoc]
        · have hstep : loadKeys (keysOf acc) (n :: rest) =
              loadKeys (keysOf (dictInsert acc n samples)) rest := by
            rw [loadKeys, if_pos hrec, keysOf_dictInsert]
          rw [hstep]
          exact h3
        · intro p hp
          rcases h4 p hp with hp1 | hp2
          · rcases mem_dictInsert hp1 with hp3 | hp3
            · exact Or.inl hp3
            · subst hp3
              exact Or.inr ⟨hrec, hl⟩
          · exact Or.inr hp2
      | error msg =>
        simp [hl] at h
    · rw [if_neg hrec] at h
      obtain ⟨h1, h2, h3, h4⟩ := ih _ _ _ _ h
      refine ⟨?_, h2, ?_, h4⟩
      · rw [h1]
        simp [List.filter_cons, hrec]
      · have hstep : loadKeys (keysOf acc) (n :: rest) =
            loadKeys (keysOf acc) rest := by
          rw [loadKeys, if_neg hrec]
        rw [hstep]
        exact h3

theorem loadPhase_err (env : Env) (dp : String) :
    ∀ (names : List String) (st st' : St)
      (acc : List (String × List Sample)) (e : EvalErr),
    loadPhase env dp st acc names = .error (st', e) →
      ∃ pre n post msg, names = pre ++ n :: post
        ∧ n ∈ datasetNames
        ∧ env.load n dp = .error msg
        ∧ e = .dataLoadErr n msg
        ∧ (∀ m ∈ pre, m ∈ datasetNames → ∃ s, env.load m dp = .ok s)
        ∧ st'.events = st.events ++ (pre.filter recognized).map Event.loadCallE
            ++ [Event.loadCallE n]
        ∧ st'.files = st.files := by
  intro names
  induction names with
  | nil =>
    intro st st' acc e h
    rw [loadPhase] at h
    exact absurd h (by simp)
  | cons n rest ih =>
    intro st st' acc e h
    rw [loadPhase] at h
    by_cases hrec : n ∈ datasetNames
    · rw [if_pos hrec] at h
      cases hl : env.load n dp with
      | ok samples =>
        simp only [hl] at h
        obtain ⟨pre, n', post, msg, hn, h2, h3, h4, h5, h6, h7⟩ := ih _ _ _ _ h
        refine ⟨n :: pre, n', post, msg, by rw [hn]; rfl, h2, h3, h4, ?_, ?_,
          by simpa using h7⟩
        · intro m hm hmrec
          rcases List.mem_cons.mp hm with hm1 | hm1
          · exact ⟨samples, hm1 ▸ hl⟩
          · exact h5 m hm1 hmrec
        · rw [h6]
          simp [List.filter_cons, hrec, List.append_assoc]
      | error msg =>
        simp only [hl, Except.error.injEq, Prod.mk.injEq] at h
        obtain ⟨h1, h2⟩ := h
        subst h1
        refine ⟨[], n, rest, msg, rfl, hrec, hl, h2.symm,
          fun m hm => absurd hm (List.not_mem_nil m), by simp, rfl⟩
    · rw [if_neg hrec] at h
      obtain ⟨pre, n', post, msg, hn, h2, h3, h4, h5, h6, h7⟩ := ih _ _ _ _ h
      refine ⟨n :: pre, n', post, msg, by rw [hn]; rfl, h2, h3, h4, ?_, ?_, h7⟩
      · intro m hm hmrec
        rcases List.mem_cons.mp hm with hm1 | hm1
        · exact absurd (hm1 ▸ hmrec) hrec
        · exact h5 m hm1 hmrec
      · rw [h6]
        simp [List.filter_cons, hrec]

theorem loadPhase_all_unrec (env : Env) (dp : String) :
    ∀ (names : List String) (st : St) (acc : List (String × List Sample)),
    (∀ n ∈ names, n ∉ datasetNames) →
    loadPhase env dp st acc names = .ok (st, acc) := by
  intro names
  induction names with
  | nil => intro st acc _; rw [loadPhase]
  | cons n rest ih =>
    intro st acc h
    rw [loadPhase, if_neg (h n (List.mem_cons_self n rest))]
    exact ih st acc (fun m hm => h m (List.mem_cons_of_mem n hm))

/-! ### Processing-loop lemmas -/

/-- The generations the engine returns for a prompt batch (meaningful when
the call succeeds). -/
def genOuts (env : Env) (llm : LLMCfg) (sp : SamplingCfg)
    (prompts : List Prompt) : List String :=
  match env.generate llm prompts sp with
  | .ok outs => outs
  | .error _ => []

/-- The report file one dataset entry produces: its path and content. -/
def entryFile (env : Env) (a : Args) (llm : LLMCfg) (sp : SamplingCfg)
    (e : String × List Sample) : String × Report :=
  (outputPath a e.1,
   reportOf a e.1 e.2 (genOuts env llm sp (prepare_prompts e.1 e.2 a).1))

/-- The events one successfully processed dataset entry contributes: its
generation call followed by its report write. -/
def entryBlock (env : Env) (a : Args) (llm : LLMCfg) (sp : SamplingCfg)
    (e : String × List Sample) : List Event :=
  [.generateE llm e.1 (prepare_prompts e.1 e.2 a).1 sp,
   .writeE (entryFile env a llm sp e).1 (entryFile env a llm sp e).2]

/-- A dataset entry's generation and report write both succeed in the
given environment. -/
def entryOk (env : Env) (a : Args) (llm : LLMCfg) (sp : SamplingCfg)
    (e : String × List Sample) : Prop :=
  (∃ outs, env.generate llm (prepare_prompts e.1 e.2 a).1 sp = .ok outs)
  ∧ env.writeOk (outputPath a e.1) = true

/-- The file dictionary after processing a list of entries. -/
def filesFold (env : Env) (a : Args) (llm : LLMCfg) (sp : SamplingCfg)
    (fs : List (String × Report)) (entries : List (String × List Sample)) :
    List (String × Report) :=
  entries.foldl
    (fun fs e => dictInsert fs (entryFile env a llm sp e).1
      (entryFile env a llm sp e).2) fs

theorem runLoop_ok (env : Env) (a : Args) (llm : LLMCfg) (sp : SamplingCfg) :
    ∀ (entries : List (String × List Sample)) (st st' : St),
    runLoop env a llm sp st entries = .ok st' →
      st'.events = st.events
        ++ (entries.map (entryBlock env a llm sp)).flatten
      ∧ st'.files = filesFold env a llm sp st.files entries
      ∧ ∀ e ∈ entries, entryOk env a llm sp e := by
  intro entries
  induction entries with
  | nil =>
    intro st st' h
    rw [runLoop] at h
    simp only [Except.ok.injEq] at h
    subst h
    exact ⟨by simp, rfl, by simp⟩
  | cons e rest ih =>
    intro st st' h
    rw [runLoop] at h
    cases hp : processOne env a llm sp st e.1 e.2 with
    | error err => simp [hp] at h
    | ok st1 =>
      simp only [hp] at h
      obtain ⟨h1, h2, h3⟩ := ih _ _ h
      rw [processOne] at hp
      cases hg : env.generate llm (prepare_prompts e.1 e.2 a).1 sp with
      | error msg => simp [hg] at hp
      | ok outputs =>
        simp only [hg] at hp
        by_cases hw : env.writeOk (outputPath a e.1) = true
        · rw [if_pos hw] at hp
          simp only [Except.ok.injEq] at hp
          subst hp
          have hfe : entryFile env a llm sp e =
              (outputPath a e.1, reportOf a e.1 e.2 outputs) := by
            rw [entryFile]
            have : genOuts env llm sp (prepare_prompts e.1 e.2 a).1 = outputs := by
              rw [genOuts, hg]
            rw [this]
          refine ⟨?_, ?_, ?_⟩
          · rw [h1]
            simp only [List.map_cons, List.flatten_cons, entryBlock, hfe]
            simp [List.append_assoc]
          · rw [h2]
            have hstep : filesFold env a llm sp st.files (e :: rest) =
                filesFold env a llm sp (dictInsert st.files (outputPath a e.1)
                  (reportOf a e.1 e.2 outputs)) rest := by
              simp only [filesFold, List.foldl_cons, hfe]
            rw [hstep]
          · intro x hx
            rcases List.mem_cons.mp hx with hx1 | hx1
            · subst hx1
              exact ⟨⟨outputs, hg⟩, hw⟩
            · exact h3 x hx1
        · rw [if_neg hw] at hp
          exact absurd hp (by simp)

theorem runLoop_err (env : Env) (a : Args) (llm : LLMCfg) (sp : SamplingCfg) :
    ∀ (entries : List (String × List Sample)) (st st' : St) (err : EvalErr),
    runLoop env a llm sp st entries = .error (st', err) →
      ∃ pre e post, entries = pre ++ e :: post
        ∧ (∀ x ∈ pre, entryOk env a llm sp x)
        ∧ st'.events = st.events
            ++ (pre.map (entryBlock env a llm sp)).flatten
            ++ [.generateE llm e.1 (prepare_prompts e.1 e.2 a).1 sp]
        ∧ st'.files = filesFold env a llm sp st.files pre := by
  intro entries
  induction entries with
  | nil =>
    intro st st' err h
    rw [runLoop] at h
    exact absurd h (by simp)
  | cons e rest ih =>
    intro st st' err h
    rw [runLoop] at h
    cases hp : processOne env a llm sp st e.1 e.2 with
    | ok st1 =>
      simp only [hp] at h
      obtain ⟨pre, x, post, hsplit, hok, hev, hfs⟩ := ih _ _ _ h
      rw [processOne] at hp
      cases hg : env.generate llm (prepare_prompts e.1 e.2 a).1 sp with
      | error msg => simp [hg] at hp
      | ok outputs =>
        simp only [hg] at hp
        by_cases hw : env.writeOk (outputPath a e.1) = true
        · rw [if_pos hw] at hp
          simp only [Except.ok.injEq] at hp
          subst hp
          have hfe : entryFile env a llm sp e =
              (outputPath a e.1, reportOf a e.1 e.2 outputs) := by
            rw [entryFile]
            have : genOuts env llm sp (prepare_prompts e.1 e.2 a).1 = outputs := by
              rw [genOuts, hg]
            rw [this]
          refine ⟨e :: pre, x, post, by rw [hsplit]; rfl, ?_, ?_, ?_⟩
          · intro y hy
            rcases List.mem_cons.mp hy with hy1 | hy1
            · subst hy1
              exact ⟨⟨outputs, hg⟩, hw⟩
            · exact hok y hy1
          · rw [hev]
            simp only [List.map_cons, List.flatten_cons, entryBlock, hfe]
            simp [List.append_assoc]
          · rw [hfs]
            have hstep : filesFold env a llm sp st.files (e :: pre) =
                filesFold env a llm sp (dictInsert st.files (outputPath a e.1)
                  (reportOf a e.1 e.2 outputs)) pre := by
              simp only [filesFold, List.foldl_cons, hfe]
            rw [hstep]
        · rw [if_neg hw] at hp
          exact absurd hp (by simp)
    | error p =>
      simp only [hp, Except.error.injEq] at h
      subst h
      rw [processOne] at hp
      cases hg : env.generate llm (prepare_prompts e.1 e.2 a).1 sp with
      | error msg =>
        simp only [hg, Except.error.injEq, Prod.mk.injEq] at hp
        obtain ⟨hp1, _⟩ := hp
        refine ⟨[], e, rest, rfl, by simp, ?_, ?_⟩
        · rw [← hp1]
          simp
        · rw [← hp1]
          rfl
      | ok outputs =>
        simp only [hg] at hp
        by_cases hw : env.writeOk (outputPath a e.1) = true
        · rw [if_pos hw] at hp
          exact absurd hp (by simp)
        · rw [if_neg hw] at hp
          simp only [Except.error.injEq, Prod.mk.injEq] at hp
          obtain ⟨hp1, _⟩ := hp
          refine ⟨[], e, rest, rfl, by simp, ?_, ?_⟩
          · rw [← hp1]
            simp
          · rw [← hp1]
            rfl

theorem outputPath_inj {a : Args} {n m : String}
    (h : outputPath a n = outputPath a m) : n = m := by
  unfold outputPath at h
  have hd := congrArg String.data h
  simp only [String.data_append] at hd
  exact String.ext (List.append_cancel_left (List.append_cancel_right hd))

theorem filesFold_eq_append (env : Env) (a : Args) (llm : LLMCfg)
    (sp : SamplingCfg) :
    ∀ (entries : List (String × List Sample)) (fs : List (String × Report)),
    (∀ e ∈ entries, outputPath a e.1 ∉ keysOf fs) →
    (entries.map (fun e => outputPath a e.1)).Nodup →
    filesFold env a llm sp fs entries =
      fs ++ entries.map (entryFile env a llm sp) := by
  intro entries
  induction entries with
  | nil => intro fs _ _; simp [filesFold]
  | cons e rest ih =>
    intro fs hfresh hnd
    simp only [List.map_cons, List.nodup_cons] at hnd
    obtain ⟨hhead, htail⟩ := hnd
    have hmem : (entryFile env a llm sp e).1 ∉ keysOf fs :=
      hfresh e (List.mem_cons_self e rest)
    have h1 : filesFold env a llm sp fs (e :: rest) =
        filesFold env a llm sp (fs ++ [entryFile env a llm sp e]) rest := by
      simp only [filesFold, List.foldl_cons]
      rw [dictInsert_of_not_mem _ hmem]
    have hfresh' : ∀ x ∈ rest,
        outputPath a x.1 ∉ keysOf (fs ++ [entryFile env a llm sp e]) := by
      intro x hx
      rw [keysOf, List.map_append, List.mem_append]
      push_neg
      refine ⟨hfresh x (List.mem_cons_of_mem e hx), ?_⟩
      rw [show List.map Prod.fst [entryFile env a llm sp e] =
        [outputPath a e.1] from rfl, List.mem_singleton]
      intro hPE
      exact hhead (hPE ▸ List.mem_map_of_mem (fun y => outputPath a y.1) hx)
    rw [h1, ih _ hfresh' htail]
    simp

theorem runLoop_ok_of_entryOk (env : Env) (a : Args) (llm : LLMCfg)
    (sp : SamplingCfg) :
    ∀ (entries : List (String × List Sample)) (st : St),
    (∀ e ∈ entries, entryOk env a llm sp e) →
    ∃ st', runLoop env a llm sp st entries = .ok st' := by
  intro entries
  induction entries with
  | nil => intro st _; exact ⟨st, by rw [runLoop]⟩
  | cons e rest ih =>
    intro st h
    obtain ⟨⟨outs, hg⟩, hw⟩ := h e (List.mem_cons_self e rest)
    have hrest := fun x hx => h x (List.mem_cons_of_mem e hx)
    obtain ⟨st', hst'⟩ := ih
      { st with
        events := (st.events ++ [.generateE llm e.1 (prepare_prompts e.1 e.2 a).1 sp])
          ++ [.writeE (outputPath a e.1) (reportOf a e.1 e.2 outs)]
        files := dictInsert st.files (outputPath a e.1) (reportOf a e.1 e.2 outs) }
      hrest
    refine ⟨st', ?_⟩
    rw [runLoop, processOne]
    simp only [hg, if_pos hw]
    exact hst'

theorem loadPhase_err_of (env : Env) (dp : String) :
    ∀ (pre : List String) (st : St) (acc : List (String × List Sample))
      (n : String) (post : List String) (msg : String),
    (∀ m ∈ pre, m ∈ datasetNames → ∃ s, env.load m dp = .ok s) →
    n ∈ datasetNames → env.load n dp = .error msg →
    loadPhase env dp st acc (pre ++ n :: post) =
      .error (⟨st.events ++ (pre.filter recognized).map Event.loadCallE
        ++ [Event.loadCallE n], st.files⟩, .dataLoadErr n msg) := by
  intro pre
  induction pre with
  | nil =>
    intro st acc n post msg _ hrec hfail
    rw [List.nil_append, loadPhase, if_pos hrec, hfail]
    simp
  | cons m pre' ih =>
    intro st acc n post msg hpre hrec hfail
    by_cases hmrec : m ∈ datasetNames
    · obtain ⟨s, hs⟩ := hpre m (List.mem_cons_self m pre') hmrec
      have hpre' := fun x hx hxr => hpre x (List.mem_cons_of_mem m hx) hxr
      have h1 := ih { st with events := st.events ++ [.loadCallE m] }
        (dictInsert acc m s) n post msg hpre' hrec hfail
      rw [List.cons_append, loadPhase, if_pos hmrec]
      simp only [hs]
      rw [h1]
      simp [List.filter_cons, hmrec, List.append_assoc]
    · have hpre' := fun x hx hxr => hpre x (List.mem_cons_of_mem m hx) hxr
      have h1 := ih st acc n post msg hpre' hrec hfail
      rw [List.cons_append, loadPhase, if_neg hmrec, h1]
      simp [List.filter_cons, hmrec]

/-! ### Unfolding `main` -/

/-- The directory set after the `os.makedirs` call. -/
def mainDirs (fs0 : List String) (a : Args) : List String :=
  if a.output_dir ∈ fs0 then fs0 else fs0 ++ [a.output_dir]

theorem osMakedirs_exist_ok (dirs : List String) (p : String) :
    osMakedirs dirs p true =
      .ok (if p ∈ dirs then dirs else dirs ++ [p]) := by
  rw [osMakedirs]
  split <;> simp

/-- The run state and outcome of `main`, which do not depend on the
pre-existing directory set. -/
def mainSt (env : Env) (a : Args) : St × Outcome :=
  match loadPhase env a.data_path (initSt a) [] (datasetsToEval a) with
  | .error (st, e) => (st, .err e)
  | .ok (st, allSamples) =>
    if allSamples.isEmpty then
      ({ st with events := st.events ++ [.noopNoticeE] }, .noop)
    else
      let llm := mkLLM a
      let sp := mkSamplingParams a
      let st1 : St := { st with events := st.events ++ [.modelInitE llm] }
      match runLoop env a llm sp st1 allSamples with
      | .error (st2, e) => (st2, .err e)
      | .ok st2 =>
        ({ st2 with events := st2.events ++ [.doneE a.output_dir] }, .ok)

theorem main_eq (env : Env) (fs0 : List String) (a : Args) :
    main env fs0 a = ((mainSt env a).1, mainDirs fs0 a, (mainSt env a).2) := by
  rw [main, osMakedirs_exist_ok, mainSt, mainDirs]
  cases hl : loadPhase env a.data_path (initSt a) [] (datasetsToEval a) with
  | error p =>
    obtain ⟨st, e⟩ := p
    simp
  | ok q =>
    obtain ⟨st, allSamples⟩ := q
    by_cases he : allSamples.isEmpty = true
    · simp [he]
    · rw [Bool.not_eq_true] at he
      simp only [he, Bool.false_eq_true, if_false]
      cases hr : runLoop env a (mkLLM a) (mkSamplingParams a)
          { st with events := st.events ++ [.modelInitE (mkLLM a)] } allSamples with
      | error p2 =>
        obtain ⟨st2, e2⟩ := p2
        simp
      | ok st2 => simp

/-- Exhaustive description of the four ways a run can go. -/
theorem mainSt_branches (env : Env) (a : Args) :
    (∃ st e, loadPhase env a.data_path (initSt a) [] (datasetsToEval a)
        = .error (st, e)
      ∧ mainSt env a = (st, .err e))
    ∨ (∃ st d, loadPhase env a.data_path (initSt a) [] (datasetsToEval a)
        = .ok (st, d)
      ∧ d.isEmpty = true
      ∧ mainSt env a =
          ({ st with events := st.events ++ [.noopNoticeE] }, .noop))
    ∨ (∃ st d st2, loadPhase env a.data_path (initSt a) [] (datasetsToEval a)
        = .ok (st, d)
      ∧ d.isEmpty = false
      ∧ runLoop env a (mkLLM a) (mkSamplingParams a)
          { st with events := st.events ++ [.modelInitE (mkLLM a)] } d = .ok st2
      ∧ mainSt env a =
          ({ st2 with events := st2.events ++ [.doneE a.output_dir] }, .ok))
    ∨ (∃ st d st2 e, loadPhase env a.data_path (initSt a) [] (datasetsToEval a)
        = .ok (st, d)
      ∧ d.isEmpty = false
      ∧ runLoop env a (mkLLM a) (mkSamplingParams a)
          { st with events := st.events ++ [.modelInitE (mkLLM a)] } d
          = .error (st2, e)
      ∧ mainSt env a = (st2, .err e)) := by
  cases hl : loadPhase env a.data_path (initSt a) [] (datasetsToEval a) with
  | error p =>
    obtain ⟨st, e⟩ := p
    exact Or.inl ⟨st, e, rfl, by simp [mainSt, hl]⟩
  | ok q =>
    obtain ⟨st, d⟩ := q
    by_cases he : d.isEmpty = true
    · exact Or.inr (Or.inl ⟨st, d, rfl, he, by simp [mainSt, hl, he]⟩)
    · rw [Bool.not_eq_true] at he
      cases hr : runLoop env a (mkLLM a) (mkSamplingParams a)
          { st with events := st.events ++ [.modelInitE (mkLLM a)] } d with
      | ok st2 =>
        refine Or.inr (Or.inr (Or.inl ⟨st, d, st2, rfl, he, hr, ?_⟩))
        simp [mainSt, hl, he, hr]
      | error p2 =>
        obtain ⟨st2, e2⟩ := p2
        refine Or.inr (Or.inr (Or.inr ⟨st, d, st2, e2, rfl, he, hr, ?_⟩))
        simp [mainSt, hl, he, hr]

theorem mem_entryBlock {env : Env} {a : Args} {llm : LLMCfg} {sp : SamplingCfg}
    {e : String × List Sample} {x : Event}
    (hx : x ∈ entryBlock env a llm sp e) :
    x = .generateE llm e.1 (prepare_prompts e.1 e.2 a).1 sp
    ∨ (∃ q r, x = .writeE q r) := by
  rw [entryBlock] at hx
  rcases List.mem_cons.mp hx with h | h
  · exact Or.inl h
  · rw [List.mem_singleton] at h
    exact Or.inr ⟨_, _, h⟩

theorem loadKeys_nil_eq (names : List String) :
    loadKeys [] names = firstOccur (names.filter recognized) := by
  rw [loadKeys_eq_firstOccur]
  simp

/-! ### JSON shape of the written report -/

/-- JSON values, for describing what `json.dump` writes. -/
inductive JVal where
  | jnull
  | jstr (s : String)
  | jnum (q : Rat)
  | jint (n : Int)
  | jbool (b : Bool)
  | jarr (xs : List JVal)
  | jobj (kvs : List (String × JVal))

/-- Modelled from the spec: the JSON object for one Result record (the
Result fields of spec section 3; produced by `utils/processing.py`, which
is not under src/). -/
def resultJson (r : ResultR) : List (String × JVal) :=
  [("sample_id", .jstr r.sample_id), ("generation", .jstr r.generation),
   ("predicted", .jstr r.predicted), ("ground_truth", .jstr r.ground_truth),
   ("correct", .jbool r.correct),
   ("category", match r.category with | none => .jnull | some c => .jstr c)]

/-- Modelled from the spec: the JSON object for the metrics dict (spec
section 6: `accuracy` always, `sub_accuracies` when present). -/
def metricsJson (m : Metrics) : List (String × JVal) :=
  ("accuracy", .jnum m.accuracy) ::
    (match m.sub_accuracies with
     | none => []
     | some s => [("sub_accuracies",
         .jobj (s.map (fun c => (c.1, JVal.jnum c.2))))])

/-- The JSON object `vars(args)` serializes to: every parsed CLI argument
of `parse_arguments`, in `add_argument` order. -/
def configJson (a : Args) : List (String × JVal) :=
  [("model", .jstr a.model), ("output_dir", .jstr a.output_dir),
   ("max_tokens", .jint a.max_tokens), ("min_pixels", .jint a.min_pixels),
   ("max_pixels", .jint a.max_pixels), ("max_model_len", .jint a.max_model_len),
   ("temperature", .jnum a.temperature), ("top_p", .jnum a.top_p),
   ("repetition_penalty", .jnum a.repetition_penalty),
   ("tensor_parallel_size", .jint a.tensor_parallel_size),
   ("eval_threads", .jint a.eval_threads),
   ("system_prompt", .jstr a.system_prompt),
   ("datasets", .jstr a.datasets), ("data_path", .jstr a.data_path)]

/-- The top-level JSON object written at `eval/main.py` lines 123-131:
the `output_dict` literal with keys `results`, `metrics`, `config`. -/
def reportJson (r : Report) : List (String × JVal) :=
  [("results", .jarr (r.results.map (fun x => .jobj (resultJson x)))),
   ("metrics", .jobj (metricsJson r.metrics)),
   ("config", .jobj (configJson r.config))]

/-! ### Shape of a full run -/

theorem initSt_events_append (a : Args) (l : List Event) :
    (initSt a).events ++ l = Event.makedirsE a.output_dir :: l := rfl

theorem paths_nodup {a : Args} {entries : List (String × List Sample)}
    (h : (keysOf entries).Nodup) :
    (entries.map (fun e => outputPath a e.1)).Nodup := by
  have heq : entries.map (fun e => outputPath a e.1) =
      (keysOf entries).map (outputPath a) := by
    rw [keysOf, List.map_map]
    rfl
  rw [heq]
  exact h.map (fun n m hnm => outputPath_inj hnm)

/-- Every run's file list is the image of a sound entry list: each entry
is a recognized dataset whose load succeeded and whose processing
succeeded, keys are distinct, and each file is that entry's report at
that entry's path. -/
theorem main_files_shape (env : Env) (fs0 : List String) (a : Args) :
    ∃ entries : List (String × List Sample),
      (∀ e ∈ entries, e.1 ∈ datasetNames ∧ env.load e.1 a.data_path = .ok e.2)
      ∧ (keysOf entries).Nodup
      ∧ (∀ e ∈ entries, entryOk env a (mkLLM a) (mkSamplingParams a) e)
      ∧ (main env fs0 a).1.files =
          entries.map (entryFile env a (mkLLM a) (mkSamplingParams a)) := by
  rw [main_eq]
  rcases mainSt_branches env a with ⟨st, e, hl, hm⟩ | ⟨st, d, hl, he, hm⟩ |
    ⟨st, d, st2, hl, he, hr, hm⟩ | ⟨st, d, st2, e, hl, he, hr, hm⟩
  · obtain ⟨pre, n, post, msg, -, -, -, -, -, -, h7⟩ :=
      loadPhase_err env a.data_path _ _ _ _ _ hl
    refine ⟨[], by simp, List.nodup_nil, by simp, ?_⟩
    rw [hm]
    show st.files = _
    rw [h7]
    rfl
  · obtain ⟨-, h2, -, -⟩ := loadPhase_ok env a.data_path _ _ _ _ _ hl
    refine ⟨[], by simp, List.nodup_nil, by simp, ?_⟩
    rw [hm]
    show st.files = _
    rw [h2]
    rfl
  · obtain ⟨h1, h2, hkeys, hsound⟩ := loadPhase_ok env a.data_path _ _ _ _ _ hl
    obtain ⟨he2, hf2, hok⟩ := runLoop_ok env a _ _ _ _ _ hr
    have hstfiles : st.files = [] := by rw [h2]; rfl
    have hkeysnd : (keysOf d).Nodup := by
      rw [hkeys]
      exact loadKeys_nodup _ _ List.nodup_nil
    refine ⟨d, ?_, hkeysnd, hok, ?_⟩
    · intro x hx
      rcases hsound x hx with hx1 | hx1
      · exact absurd hx1 (List.not_mem_nil x)
      · exact hx1
    · rw [hm]
      show st2.files = _
      rw [hf2]
      have hfz : ({ st with
          events := st.events ++ [Event.modelInitE (mkLLM a)] } : St).files = [] := by
        show st.files = []
        exact hstfiles
      rw [hfz, filesFold_eq_append env a _ _ d []
        (by intro x _ hc; simp [keysOf] at hc) (paths_nodup hkeysnd)]
      rw [List.nil_append]
  · obtain ⟨h1, h2, hkeys, hsound⟩ := loadPhase_ok env a.data_path _ _ _ _ _ hl
    obtain ⟨pre, x, post, hsplit, hok, he2, hf2⟩ := runLoop_err env a _ _ _ _ _ _ hr
    have hstfiles : st.files = [] := by rw [h2]; rfl
    have hkeysnd : (keysOf d).Nodup := by
      rw [hkeys]
      exact loadKeys_nodup _ _ List.nodup_nil
    have hprend : (keysOf pre).Nodup := by
      have hsub : pre.Sublist d := by
        rw [hsplit]
        exact List.sublist_append_left pre (x :: post)
      exact List.Nodup.sublist (hsub.map Prod.fst) hkeysnd
    refine ⟨pre, ?_, hprend, hok, ?_⟩
    · intro y hy
      have hyd : y ∈ d := by
        rw [hsplit]
        exact List.mem_append.mpr (Or.inl hy)
      rcases hsound y hyd with hy1 | hy1
      · exact absurd hy1 (List.not_mem_nil y)
      · exact hy1
    · rw [hm]
      show st2.files = _
      rw [hf2]
      have hfz : ({ st with
          events := st.events ++ [Event.modelInitE (mkLLM a)] } : St).files = [] := by
        show st.files = []
        exact hstfiles
      rw [hfz, filesFold_eq_append env a _ _ pre []
        (by intro y _ hc; simp [keysOf] at hc) (paths_nodup hprend)]
      rw [List.nil_append]

theorem mainSt_events_extend (env : Env) (a : Args) :
    ∃ tail, (mainSt env a).1.events = (initSt a).events ++ tail := by
  rcases mainSt_branches env a with ⟨st, e, hl, hm⟩ | ⟨st, d, hl, he, hm⟩ |
    ⟨st, d, st2, hl, he, hr, hm⟩ | ⟨st, d, st2, e, hl, he, hr, hm⟩
  · obtain ⟨pre, n, post, msg, -, -, -, -, -, h6, -⟩ :=
      loadPhase_err env a.data_path _ _ _ _ _ hl
    refine ⟨(pre.filter recognized).map Event.loadCallE ++ [Event.loadCallE n], ?_⟩
    rw [hm]
    show st.events = _
    rw [h6, List.append_assoc]
  · obtain ⟨h1, -, -, -⟩ := loadPhase_ok env a.data_path _ _ _ _ _ hl
    refine ⟨((datasetsToEval a).filter recognized).map Event.loadCallE
      ++ [Event.noopNoticeE], ?_⟩
    rw [hm]
    show st.events ++ [Event.noopNoticeE] = _
    rw [h1, List.append_assoc]
  · obtain ⟨h1, -, -, -⟩ := loadPhase_ok env a.data_path _ _ _ _ _ hl
    obtain ⟨he2, -, -⟩ := runLoop_ok env a _ _ _ _ _ hr
    refine ⟨((datasetsToEval a).filter recognized).map Event.loadCallE
      ++ ([Event.modelInitE (mkLLM a)]
        ++ ((d.map (entryBlock env a (mkLLM a) (mkSamplingParams a))).flatten
          ++ [Event.doneE a.output_dir])), ?_⟩
    rw [hm]
    show st2.events ++ [Event.doneE a.output_dir] = _
    rw [he2]
    show ((st.events ++ [Event.modelInitE (mkLLM a)]) ++ _) ++ _ = _
    rw [h1]
    simp [List.append_assoc]
  · obtain ⟨h1, -, -, -⟩ := loadPhase_ok env a.data_path _ _ _ _ _ hl
    obtain ⟨pre, x, post, hsplit, -, he2, -⟩ := runLoop_err env a _ _ _ _ _ _ hr
    refine ⟨((datasetsToEval a).filter recognized).map Event.loadCallE
      ++ ([Event.modelInitE (mkLLM a)]
        ++ ((pre.map (entryBlock env a (mkLLM a) (mkSamplingParams a))).flatten
          ++ [Event.generateE (mkLLM a) x.1 (prepare_prompts x.1 x.2 a).1
            (mkSamplingParams a)])), ?_⟩
    rw [hm]
    show st2.events = _
    rw [he2]
    show ((st.events ++ [Event.modelInitE (mkLLM a)]) ++ _) ++ _ = _
    rw [h1]
    simp [List.append_assoc]

theorem main_events_head (env : Env) (fs0 : List String) (a : Args) :
    ∃ rest, (main env fs0 a).1.events = Event.makedirsE a.output_dir :: rest := by
  obtain ⟨tail, h⟩ := mainSt_events_extend env a
  refine ⟨tail, ?_⟩
  rw [main_eq]
  show (mainSt env a).1.events = _
  rw [h, initSt_events_append]

/-- In a run that reaches the processing phase, the event trace is: the
mkdir, then the loader calls, then the single engine construction, then
only generation calls (on the shared engine and sampling configuration),
report writes, and the final message; and at least one generation call
occurs. -/
theorem main_events_decomp (env : Env) (fs0 : List String) (a : Args)
    (st1 : St) (d : List (String × List Sample))
    (hload : loadPhase env a.data_path (initSt a) [] (datasetsToEval a)
      = .ok (st1, d))
    (hne : d.isEmpty = false) :
    ∃ E2, (main env fs0 a).1.events =
        Event.makedirsE a.output_dir ::
          (((datasetsToEval a).filter recognized).map Event.loadCallE
            ++ Event.modelInitE (mkLLM a) :: E2)
      ∧ (∀ x ∈ E2,
          (∃ e ∈ d, x = .generateE (mkLLM a) e.1 (prepare_prompts e.1 e.2 a).1
            (mkSamplingParams a))
          ∨ (∃ q r, x = .writeE q r)
          ∨ x = .doneE a.output_dir)
      ∧ (∃ e ∈ d, .generateE (mkLLM a) e.1 (prepare_prompts e.1 e.2 a).1
          (mkSamplingParams a) ∈ E2) := by
  obtain ⟨h1, -, -, -⟩ := loadPhase_ok env a.data_path _ _ _ _ _ hload
  rw [main_eq]
  cases hr : runLoop env a (mkLLM a) (mkSamplingParams a)
      { st1 with events := st1.events ++ [.modelInitE (mkLLM a)] } d with
  | ok st2 =>
    have hm : mainSt env a =
        ({ st2 with events := st2.events ++ [.doneE a.output_dir] }, .ok) := by
      simp [mainSt, hload, hne, hr]
    obtain ⟨he2, -, -⟩ := runLoop_ok env a _ _ _ _ _ hr
    obtain ⟨e0, d', rfl⟩ : ∃ e0 d', d = e0 :: d' := by
      cases d with
      | nil => simp at hne
      | cons e0 d' => exact ⟨e0, d', rfl⟩
    refine ⟨((e0 :: d').map (entryBlock env a (mkLLM a)
        (mkSamplingParams a))).flatten ++ [.doneE a.output_dir], ?_, ?_, ?_⟩
    · rw [hm]
      show st2.events ++ [Event.doneE a.output_dir] = _
      rw [he2]
      show ((st1.events ++ [Event.modelInitE (mkLLM a)]) ++ _) ++ _ = _
      rw [h1]
      simp [initSt, List.append_assoc]
    · intro x hx
      rcases List.mem_append.mp hx with hx1 | hx1
      · rcases List.mem_flatten.mp hx1 with ⟨bl, hbl, hxbl⟩
        rcases List.mem_map.mp hbl with ⟨e, hed, hbe⟩
        rcases mem_entryBlock (hbe ▸ hxbl) with hgen | hwr
        · exact Or.inl ⟨e, hed, hgen⟩
        · exact Or.inr (Or.inl hwr)
      · rw [List.mem_singleton] at hx1
        exact Or.inr (Or.inr hx1)
    · refine ⟨e0, List.mem_cons_self e0 d', ?_⟩
      apply List.mem_append.mpr
      left
      apply List.mem_flatten.mpr
      refine ⟨entryBlock env a (mkLLM a) (mkSamplingParams a) e0, ?_, ?_⟩
      · exact List.mem_map_of_mem _ (List.mem_cons_self e0 d')
      · rw [entryBlock]
        exact List.mem_cons_self _ _
  | error p2 =>
    obtain ⟨st2, e2⟩ := p2
    have hm : mainSt env a = (st2, .err e2) := by
      simp [mainSt, hload, hne, hr]
    obtain ⟨pre, x, post, hsplit, -, he2, -⟩ := runLoop_err env a _ _ _ _ _ _ hr
    have hxd : x ∈ d := by
      rw [hsplit]
      exact List.mem_append.mpr (Or.inr (List.mem_cons_self x post))
    refine ⟨(pre.map (entryBlock env a (mkLLM a) (mkSamplingParams a))).flatten
      ++ [.generateE (mkLLM a) x.1 (prepare_prompts x.1 x.2 a).1
        (mkSamplingParams a)], ?_, ?_, ?_⟩
    · rw [hm]
      show st2.events = _
      rw [he2]
      show ((st1.events ++ [Event.modelInitE (mkLLM a)]) ++ _) ++ _ = _
      rw [h1]
      simp [initSt, List.append_assoc]
    · intro y hy
      rcases List.mem_append.mp hy with hy1 | hy1
      · rcases List.mem_flatten.mp hy1 with ⟨bl, hbl, hybl⟩
        rcases List.mem_map.mp hbl with ⟨e, hed, hbe⟩
        have hedd : e ∈ d := by
          rw [hsplit]
          exact List.mem_append.mpr (Or.inl hed)
        rcases mem_entryBlock (hbe ▸ hybl) with hgen | hwr
        · exact Or.inl ⟨e, hedd, hgen⟩
        · exact Or.inr (Or.inl hwr)
      · rw [List.mem_singleton] at hy1
        exact Or.inl ⟨x, hxd, hy1⟩
    · exact ⟨x, hxd,
        List.mem_append.mpr (Or.inr (List.mem_singleton_self _))⟩

/-! ### Concrete runs used to exercise the theorems -/

set_option maxRecDepth 10000

def sampleFor (n : String) : Sample :=
  { sample_id := n ++ "-1", image := "img", question := "q", answer := "42",
    category := none }

/-- An environment where every load, generation, and write succeeds. -/
def envAllOk : Env :=
  { load := fun n _ => .ok [sampleFor n]
    generate := fun _ prompts _ =>
      .ok (prompts.map (fun _ => "\\boxed\x7b42\x7d"))
    writeOk := fun _ => true }

/-- Like `envAllOk`, but the geo3k loader raises `DataLoadError`. -/
def envLoadFail : Env :=
  { envAllOk with
    load := fun n dp =>
      if n = "geo3k" then .error "missing files" else envAllOk.load n dp }

/-- Like `envAllOk`, but writing the wemath report raises `IOError`. -/
def envWriteFail : Env :=
  { envAllOk with
    writeOk := fun p => decide (p ≠ "out/wemath.json") }

/-- Like `envAllOk`, but the geo3k loader returns an empty sample list. -/
def envEmptyGeo : Env :=
  { envAllOk with
    load := fun n dp =>
      if n = "geo3k" then .ok [] else envAllOk.load n dp }

/-- A resolved configuration with the CLI defaults (0.95 and 0.7 written
as rationals) and concrete required arguments. -/
def argsBase : Args :=
  { model := "m", output_dir := "out", max_tokens := 2048,
    min_pixels := 262144, max_pixels := 1000000, max_model_len := 8192,
    temperature := 0, top_p := mkRat 19 20, repetition_penalty := 1,
    tensor_parallel_size := 2, eval_threads := 32, system_prompt := "sys",
    datasets := "all", data_path := "dp" }

def argsOne : Args := { argsBase with datasets := "geo3k" }

def argsTwo : Args := { argsBase with datasets := "geo3k,wemath" }

def argsDup : Args := { argsBase with datasets := "geo3k,geo3k" }

def argsNoop : Args := { argsBase with datasets := "foo" }

def argsMix : Args := { argsBase with datasets := "geo3k,foo" }

/-- Load-phase result of a successful single-dataset geo3k run. -/
def stOne : St := ⟨[Event.makedirsE "out", Event.loadCallE "geo3k"], []⟩

def dOne : List (String × List Sample) := [("geo3k", [sampleFor "geo3k"])]

/-- Load-phase result of a geo3k+wemath run. -/
def stTwo : St :=
  ⟨[Event.makedirsE "out", Event.loadCallE "geo3k", Event.loadCallE "wemath"], []⟩

def dTwo : List (String × List Sample) :=
  [("geo3k", [sampleFor "geo3k"]), ("wemath", [sampleFor "wemath"])]

/-- Load-phase result of the duplicated geo3k,geo3k run. -/
def stDup : St :=
  ⟨[Event.makedirsE "out", Event.loadCallE "geo3k", Event.loadCallE "geo3k"], []⟩

/-- Load-phase result when geo3k loads to an empty sample list. -/
def dEmpty : List (String × List Sample) := [("geo3k", [])]

/-! ### The no-op early return (shared helper) -/

theorem noop_run (env : Env) (fs0 : List String) (a : Args)
    (h : ∀ m ∈ datasetsToEval a, m ∉ datasetNames) :
    (main env fs0 a).1.events =
      [Event.makedirsE a.output_dir, Event.noopNoticeE]
    ∧ (main env fs0 a).1.files = []
    ∧ (main env fs0 a).2.2 = .noop := by
  have hl := loadPhase_all_unrec env a.data_path (datasetsToEval a) (initSt a) [] h
  rw [main_eq]
  have hm : mainSt env a =
      ({ initSt a with events := (initSt a).events ++ [.noopNoticeE] }, .noop) := by
    simp [mainSt, hl]
  rw [hm]
  exact ⟨rfl, rfl, rfl⟩

/-! ### Claim C1 -/

/-- Claim C1 counterexample: with the geo3k loader failing and datasets
"geo3k,wemath", the run dies with the load error — the wemath loader is
never invoked, no report is ever written, so the failed dataset is not
skipped and the run does not continue. -/
theorem c1_counterexample :
    (main envLoadFail [] argsTwo).2.2
      = .err (.dataLoadErr "geo3k" "missing files")
    ∧ Event.loadCallE "wemath" ∉ (main envLoadFail [] argsTwo).1.events
    ∧ (main envLoadFail [] argsTwo).1.files = [] := by
  refine ⟨rfl, by decide, rfl⟩

/-- Claim C1 (amended): when loading a requested dataset raises
`DataLoadError`, the uncaught exception aborts the whole run at that
point: the failing dataset is not skipped, datasets after it are not
attempted, and no report is written. -/
theorem c1_load_error_aborts (env : Env) (fs0 : List String) (a : Args)
    (pre : List String) (n : String) (post : List String) (msg : String)
    (hsplit : datasetsToEval a = pre ++ n :: post)
    (hrec : n ∈ datasetNames)
    (hpre : ∀ m ∈ pre, m ∈ datasetNames → ∃ s, env.load m a.data_path = .ok s)
    (hfail : env.load n a.data_path = .error msg) :
    (main env fs0 a).2.2 = .err (.dataLoadErr n msg)
    ∧ (main env fs0 a).1.events = Event.makedirsE a.output_dir ::
        ((pre.filter recognized).map Event.loadCallE ++ [Event.loadCallE n])
    ∧ (main env fs0 a).1.files = [] := by
  have hl := loadPhase_err_of env a.data_path pre (initSt a) [] n post msg
    hpre hrec hfail
  rw [← hsplit] at hl
  rw [main_eq]
  have hm : mainSt env a =
      (⟨(initSt a).events ++ (pre.filter recognized).map Event.loadCallE
        ++ [Event.loadCallE n], (initSt a).files⟩,
       .err (.dataLoadErr n msg)) := by
    simp [mainSt, hl]
  rw [hm]
  refine ⟨rfl, ?_, rfl⟩
  show (initSt a).events ++ _ ++ _ = _
  rw [List.append_assoc, initSt_events_append]

theorem c1_load_error_aborts_witness :
    datasetsToEval argsTwo = [] ++ "geo3k" :: ["wemath"]
    ∧ (main envLoadFail [] argsTwo).1.events = Event.makedirsE "out" ::
        (([].filter recognized).map Event.loadCallE
          ++ [Event.loadCallE "geo3k"]) :=
  ⟨by decide,
   (c1_load_error_aborts envLoadFail [] argsTwo [] "geo3k" ["wemath"]
     "missing files" (by decide) (by decide)
     (fun m hm => absurd hm (List.not_mem_nil m)) (by decide)).2.1⟩

/-! ### Claim C4 -/

/-- Claim C4 counterexample: the no-op early return terminates with exit
code 0 — exactly the exit code of a fully successful run — so no exit
code indicates that nothing was done. -/
theorem c4_counterexample :
    (main envAllOk [] argsNoop).2.2 = .noop
    ∧ (main envAllOk [] argsOne).2.2 = .ok
    ∧ exitCode (main envAllOk [] argsNoop).2.2
        = exitCode (main envAllOk [] argsOne).2.2 := by
  refine ⟨rfl, by decide, by decide⟩

/-- Claim C4 (amended): when no requested dataset name is recognized, the
run prints the no-op notice and returns early — before constructing the
engine, before any generation, and without writing any report — and the
process exits normally with code 0, the same exit code as a successful
run, not a distinct nothing-was-done code. -/
theorem c4_noop_return (env : Env) (fs0 : List String) (a : Args)
    (h : ∀ m ∈ datasetsToEval a, m ∉ datasetNames) :
    (main env fs0 a).1.events =
      [Event.makedirsE a.output_dir, Event.noopNoticeE]
    ∧ (main env fs0 a).1.files = []
    ∧ (main env fs0 a).2.2 = .noop
    ∧ exitCode (main env fs0 a).2.2 = 0
    ∧ exitCode .ok = 0
    ∧ ∀ e ∈ (main env fs0 a).1.events,
        e.isInit = false ∧ e.isGen = false ∧ e.isWrite = false := by
  obtain ⟨h1, h2, h3⟩ := noop_run env fs0 a h
  refine ⟨h1, h2, h3, by rw [h3]; rfl, rfl, ?_⟩
  intro e he
  rw [h1] at he
  rcases List.mem_cons.mp he with rfl | he2
  · exact ⟨rfl, rfl, rfl⟩
  · rw [List.mem_singleton] at he2
    subst he2
    exact ⟨rfl, rfl, rfl⟩

theorem c4_noop_return_witness :
    (∀ m ∈ datasetsToEval argsNoop, m ∉ datasetNames)
    ∧ (main envAllOk [] argsNoop).1.events =
        [Event.makedirsE "out", Event.noopNoticeE] :=
  ⟨by decide, (c4_noop_return envAllOk [] argsNoop (by decide)).1⟩

/-! ### Claim C8 -/

/-- Claim C8: the `os.makedirs(output_dir, exist_ok=True)` call at line
49 is the first effect of every run (before any report write), it creates
the directory when absent, and — because `exist_ok=True` never raises —
a pre-existing output directory changes nothing about the run. -/
theorem c8_output_dir (env : Env) (fs0 : List String) (a : Args) :
    (∃ rest, (main env fs0 a).1.events
      = Event.makedirsE a.output_dir :: rest)
    ∧ a.output_dir ∈ (main env fs0 a).2.1
    ∧ (∀ dirs, osMakedirs dirs a.output_dir true =
        .ok (if a.output_dir ∈ dirs then dirs else dirs ++ [a.output_dir]))
    ∧ (main env (a.output_dir :: fs0) a).1 = (main env fs0 a).1
    ∧ (main env (a.output_dir :: fs0) a).2.2 = (main env fs0 a).2.2 := by
  refine ⟨main_events_head env fs0 a, ?_,
    fun dirs => osMakedirs_exist_ok dirs a.output_dir, ?_, ?_⟩
  · rw [main_eq]
    show a.output_dir ∈ mainDirs fs0 a
    rw [mainDirs]
    split
    · assumption
    · exact List.mem_append.mpr (Or.inr (List.mem_singleton_self _))
  · rw [main_eq, main_eq]
  · rw [main_eq, main_eq]

/-! ### Claim C2 -/

theorem metricsJson_keys (m : Metrics) :
    (metricsJson m).map Prod.fst = "accuracy" ::
      (match m.sub_accuracies with
       | none => []
       | some _ => ["sub_accuracies"]) := by
  rcases m with ⟨acc, sub⟩
  cases sub <;> rfl

/-- Claim C2: each written report sits at `<output-dir>/<dataset>.json`
for a recognized dataset, paths are pairwise distinct (exactly one file
per dataset), the top-level JSON object has exactly the keys `results`,
`metrics`, `config`, the `config` object is the full resolved CLI
configuration (all fourteen parsed arguments), and the `metrics` object
always carries `accuracy` and carries `sub_accuracies` exactly when a
sub-accuracy breakdown exists. -/
theorem c2_report_file_shape (env : Env) (fs0 : List String) (a : Args) :
    ((main env fs0 a).1.files.map Prod.fst).Nodup
    ∧ ∀ p ∈ (main env fs0 a).1.files,
        (∃ dname ∈ datasetNames, p.1 = outputPath a dname)
        ∧ (reportJson p.2).map Prod.fst = ["results", "metrics", "config"]
        ∧ p.2.config = a
        ∧ (configJson p.2.config).map Prod.fst = ["model", "output_dir",
            "max_tokens", "min_pixels", "max_pixels", "max_model_len",
            "temperature", "top_p", "repetition_penalty",
            "tensor_parallel_size", "eval_threads", "system_prompt",
            "datasets", "data_path"]
        ∧ "accuracy" ∈ (metricsJson p.2.metrics).map Prod.fst
        ∧ ("sub_accuracies" ∈ (metricsJson p.2.metrics).map Prod.fst ↔
            p.2.metrics.sub_accuracies ≠ none) := by
  obtain ⟨entries, hsound, hnd, hok, hfiles⟩ := main_files_shape env fs0 a
  constructor
  · rw [hfiles]
    have hmm : (entries.map (entryFile env a (mkLLM a)
        (mkSamplingParams a))).map Prod.fst =
        entries.map (fun e => outputPath a e.1) := by
      rw [List.map_map]
      rfl
    rw [hmm]
    exact paths_nodup hnd
  · intro p hp
    rw [hfiles] at hp
    rcases List.mem_map.mp hp with ⟨e, he, hpe⟩
    subst hpe
    refine ⟨⟨e.1, (hsound e he).1, rfl⟩, rfl, rfl, rfl, ?_, ?_⟩
    · rw [metricsJson_keys]
      exact List.mem_cons_self _ _
    · rw [metricsJson_keys]
      rcases hsub : (entryFile env a (mkLLM a)
          (mkSamplingParams a) e).2.metrics.sub_accuracies with _ | s
      · decide
      · simp

def c2report : Report :=
  (entryFile envAllOk argsOne (mkLLM argsOne) (mkSamplingParams argsOne)
    ("geo3k", [sampleFor "geo3k"])).2

theorem c2_report_file_shape_witness :
    ("out/geo3k.json", c2report) ∈ (main envAllOk [] argsOne).1.files
    ∧ (reportJson c2report).map Prod.fst = ["results", "metrics", "config"] :=
  ⟨by decide,
   ((c2_report_file_shape envAllOk [] argsOne).2 ("out/geo3k.json", c2report)
     (by decide)).2.1⟩

/-! ### Claim C5 -/

/-- Claim C5 counterexample: with `--datasets geo3k,geo3k` the requested
list has two entries and two loader calls happen, but only one dataset
evaluation (one generation call) and one report occur — the evaluation
sequence is not the requested two-entry sequence. -/
theorem c5_counterexample :
    datasetsToEval argsDup = ["geo3k", "geo3k"]
    ∧ (main envAllOk [] argsDup).1.events.filter Event.isLoad
        = [Event.loadCallE "geo3k", Event.loadCallE "geo3k"]
    ∧ ((main envAllOk [] argsDup).1.events.filter Event.isGen).length = 1
    ∧ (main envAllOk [] argsDup).1.files.map Prod.fst = ["out/geo3k.json"] := by
  refine ⟨by decide, by decide, by decide, by decide⟩

/-- Claim C5 (amended): `--datasets all` selects exactly the six names in
the fixed order.  In every fully successful run, loader calls happen once
per recognized requested entry, in request order (duplicates are loaded
again), while evaluation and reporting happen once per distinct
recognized name, in order of first occurrence — which is exactly the
requested order when the requested names are distinct. -/
theorem c5_requested_order (env : Env) (fs0 : List String) (a : Args)
    (st1 : St) (d : List (String × List Sample))
    (hload : loadPhase env a.data_path (initSt a) [] (datasetsToEval a)
      = .ok (st1, d))
    (hall : ∀ e ∈ d, entryOk env a (mkLLM a) (mkSamplingParams a) e) :
    (a.datasets = "all" → datasetsToEval a = datasetNames)
    ∧ st1.events = Event.makedirsE a.output_dir ::
        ((datasetsToEval a).filter recognized).map Event.loadCallE
    ∧ keysOf d = firstOccur ((datasetsToEval a).filter recognized)
    ∧ (main env fs0 a).1.files.map Prod.fst = (keysOf d).map (outputPath a) := by
  obtain ⟨h1, h2, hkeys, -⟩ := loadPhase_ok env a.data_path _ _ _ _ _ hload
  have hkeysF : keysOf d = firstOccur ((datasetsToEval a).filter recognized) := by
    rw [hkeys]
    exact loadKeys_nil_eq _
  refine ⟨?_, ?_, hkeysF, ?_⟩
  · intro hall'
    rw [datasetsToEval, if_neg (by simp [hall'])]
  · rw [h1, initSt_events_append]
  · by_cases he : d.isEmpty = true
    · have hd : d = [] := by
        cases d with
        | nil => rfl
        | cons x xs => simp at he
      rw [main_eq]
      have hm : mainSt env a =
          ({ st1 with events := st1.events ++ [.noopNoticeE] }, .noop) := by
        simp [mainSt, hload, he]
      rw [hm]
      show st1.files.map Prod.fst = _
      rw [h2, hd]
      rfl
    · rw [Bool.not_eq_true] at he
      obtain ⟨st2, hr⟩ := runLoop_ok_of_entryOk env a (mkLLM a)
        (mkSamplingParams a) d
        { st1 with events := st1.events ++ [.modelInitE (mkLLM a)] } hall
      rw [main_eq]
      have hm : mainSt env a =
          ({ st2 with events := st2.events ++ [.doneE a.output_dir] }, .ok) := by
        simp [mainSt, hload, he, hr]
      rw [hm]
      show st2.files.map Prod.fst = _
      obtain ⟨-, hf2, -⟩ := runLoop_ok env a _ _ _ _ _ hr
      rw [hf2]
      have hfz : ({ st1 with
          events := st1.events ++ [Event.modelInitE (mkLLM a)] } : St).files
          = [] := by
        show st1.files = []
        rw [h2]
        rfl
      have hknd : (keysOf d).Nodup := by
        rw [hkeys]
        exact loadKeys_nodup _ _ List.nodup_nil
      rw [hfz, filesFold_eq_append env a _ _ d []
        (by intro x _ hc; simp [keysOf] at hc) (paths_nodup hknd),
        List.nil_append]
      rw [List.map_map, keysOf, List.map_map]
      rfl

theorem c5_requested_order_witness :
    loadPhase envAllOk argsDup.data_path (initSt argsDup) []
      (datasetsToEval argsDup) = .ok (stDup, dOne)
    ∧ (main envAllOk [] argsDup).1.files.map Prod.fst
        = (keysOf dOne).map (outputPath argsDup) :=
  ⟨by rfl,
   (c5_requested_order envAllOk [] argsDup stDup dOne (by rfl)
     (by
       intro e he
       rw [dOne, List.mem_singleton] at he
       subst he
       exact ⟨⟨_, rfl⟩, rfl⟩)).2.2.2⟩

/-! ### Claim C6 -/

/-- Claim C6: in every run that reaches the processing phase, the engine
is constructed exactly once — after all dataset loading and before any
generation — and every generation call of every dataset uses that same
engine configuration, which the orchestrator never alters. -/
theorem c6_engine_once (env : Env) (fs0 : List String) (a : Args)
    (st1 : St) (d : List (String × List Sample))
    (hload : loadPhase env a.data_path (initSt a) [] (datasetsToEval a)
      = .ok (st1, d))
    (hne : d.isEmpty = false) :
    ∃ E1 E2, (main env fs0 a).1.events
        = E1 ++ Event.modelInitE (mkLLM a) :: E2
      ∧ (∀ x ∈ E1, x = Event.makedirsE a.output_dir
          ∨ ∃ m, x = Event.loadCallE m)
      ∧ (∀ x ∈ E2, x.isLoad = false ∧ x.isInit = false)
      ∧ (∀ cfg n p s, Event.generateE cfg n p s ∈ (main env fs0 a).1.events →
          cfg = mkLLM a) := by
  obtain ⟨E2, hev, hmem, -⟩ := main_events_decomp env fs0 a st1 d hload hne
  refine ⟨Event.makedirsE a.output_dir ::
    ((datasetsToEval a).filter recognized).map Event.loadCallE, E2,
    ?_, ?_, ?_, ?_⟩
  · rw [hev]
    rfl
  · intro x hx
    rcases List.mem_cons.mp hx with rfl | hx1
    · exact Or.inl rfl
    · rcases List.mem_map.mp hx1 with ⟨m, -, rfl⟩
      exact Or.inr ⟨m, rfl⟩
  · intro x hx
    rcases hmem x hx with ⟨e, -, rfl⟩ | ⟨q, r, rfl⟩ | rfl
    · exact ⟨rfl, rfl⟩
    · exact ⟨rfl, rfl⟩
    · exact ⟨rfl, rfl⟩
  · intro cfg n p s hg
    rw [hev] at hg
    rcases List.mem_cons.mp hg with hc | hc
    · exact absurd hc (by simp)
    · rcases List.mem_append.mp hc with hc1 | hc1
      · rcases List.mem_map.mp hc1 with ⟨m, -, hcm⟩
        exact absurd hcm (by simp)
      · rcases List.mem_cons.mp hc1 with hc2 | hc2
        · exact absurd hc2 (by simp)
        · rcases hmem _ hc2 with ⟨e, -, heq⟩ | ⟨q, r, heq⟩ | heq
          · simp only [Event.generateE.injEq] at heq
            exact heq.1
          · exact absurd heq (by simp)
          · exact absurd heq (by simp)

theorem c6_engine_once_witness :
    loadPhase envAllOk argsOne.data_path (initSt argsOne) []
      (datasetsToEval argsOne) = .ok (stOne, dOne)
    ∧ dOne.isEmpty = false
    ∧ ∃ E1 E2, (main envAllOk [] argsOne).1.events
        = E1 ++ Event.modelInitE (mkLLM argsOne) :: E2 :=
  ⟨by rfl, rfl, by
    obtain ⟨E1, E2, h1, -, -, -⟩ :=
      c6_engine_once envAllOk [] argsOne stOne dOne (by rfl) rfl
    exact ⟨E1, E2, h1⟩⟩

/-! ### Claim C7 -/

/-- Claim C7: in every run that reaches the processing phase, the
sampling configuration consists of exactly the CLI-resolved temperature,
top-p, max output tokens, and repetition penalty, every generation call
of every dataset carries that single configuration, and at least one
generation call happens. -/
theorem c7_sampling_config (env : Env) (fs0 : List String) (a : Args)
    (st1 : St) (d : List (String × List Sample))
    (hload : loadPhase env a.data_path (initSt a) [] (datasetsToEval a)
      = .ok (st1, d))
    (hne : d.isEmpty = false) :
    mkSamplingParams a =
      (⟨a.temperature, a.top_p, a.max_tokens, a.repetition_penalty⟩ : SamplingCfg)
    ∧ (∀ cfg n p s, Event.generateE cfg n p s ∈ (main env fs0 a).1.events →
        s = mkSamplingParams a)
    ∧ (∃ n p, Event.generateE (mkLLM a) n p (mkSamplingParams a)
        ∈ (main env fs0 a).1.events) := by
  obtain ⟨E2, hev, hmem, hex⟩ := main_events_decomp env fs0 a st1 d hload hne
  refine ⟨rfl, ?_, ?_⟩
  · intro cfg n p s hg
    rw [hev] at hg
    rcases List.mem_cons.mp hg with hc | hc
    · exact absurd hc (by simp)
    · rcases List.mem_append.mp hc with hc1 | hc1
      · rcases List.mem_map.mp hc1 with ⟨m, -, hcm⟩
        exact absurd hcm (by simp)
      · rcases List.mem_cons.mp hc1 with hc2 | hc2
        · exact absurd hc2 (by simp)
        · rcases hmem _ hc2 with ⟨e, -, heq⟩ | ⟨q, r, heq⟩ | heq
          · simp only [Event.generateE.injEq] at heq
            exact heq.2.2.2
          · exact absurd heq (by simp)
          · exact absurd heq (by simp)
  · obtain ⟨e, -, hgen⟩ := hex
    refine ⟨e.1, (prepare_prompts e.1 e.2 a).1, ?_⟩
    rw [hev]
    exact List.mem_cons_of_mem _
      (List.mem_append.mpr (Or.inr (List.mem_cons_of_mem _ hgen)))

theorem c7_sampling_config_witness :
    loadPhase envAllOk argsOne.data_path (initSt argsOne) []
      (datasetsToEval argsOne) = .ok (stOne, dOne)
    ∧ ∃ n p, Event.generateE (mkLLM argsOne) n p (mkSamplingParams argsOne)
        ∈ (main envAllOk [] argsOne).1.events :=
  ⟨by rfl,
   (c7_sampling_config envAllOk [] argsOne stOne dOne (by rfl) rfl).2.2⟩

/-! ### Claim C3 -/

/-- Claim C3: dataset processing is strictly sequential — each processed
dataset contributes the block [its generation call, its report write]
before the next dataset's generation call begins — and when the run dies
while processing some dataset, the files on disk are exactly the intact
reports of the datasets fully processed before it. -/
theorem c3_sequential_persistence (env : Env) (fs0 : List String) (a : Args)
    (st1 : St) (d : List (String × List Sample))
    (hload : loadPhase env a.data_path (initSt a) [] (datasetsToEval a)
      = .ok (st1, d))
    (hne : d.isEmpty = false) :
    ∃ pre rest, d = pre ++ rest
      ∧ (main env fs0 a).1.files =
          pre.map (entryFile env a (mkLLM a) (mkSamplingParams a))
      ∧ ((main env fs0 a).2.2 = .ok → rest = [])
      ∧ ((rest = [] ∧ (main env fs0 a).1.events =
            Event.makedirsE a.output_dir ::
              (((datasetsToEval a).filter recognized).map Event.loadCallE
                ++ Event.modelInitE (mkLLM a) ::
                  ((pre.map (entryBlock env a (mkLLM a)
                    (mkSamplingParams a))).flatten
                    ++ [Event.doneE a.output_dir])))
        ∨ (∃ x rest2, rest = x :: rest2
            ∧ (∃ er, (main env fs0 a).2.2 = .err er)
            ∧ (main env fs0 a).1.events =
              Event.makedirsE a.output_dir ::
                (((datasetsToEval a).filter recognized).map Event.loadCallE
                  ++ Event.modelInitE (mkLLM a) ::
                    ((pre.map (entryBlock env a (mkLLM a)
                      (mkSamplingParams a))).flatten
                      ++ [Event.generateE (mkLLM a) x.1
                        (prepare_prompts x.1 x.2 a).1
                        (mkSamplingParams a)])))) := by
  obtain ⟨h1, h2, hkeys, -⟩ := loadPhase_ok env a.data_path _ _ _ _ _ hload
  have hstfiles : st1.files = [] := by rw [h2]; rfl
  have hknd : (keysOf d).Nodup := by
    rw [hkeys]
    exact loadKeys_nodup _ _ List.nodup_nil
  rw [main_eq]
  cases hr : runLoop env a (mkLLM a) (mkSamplingParams a)
      { st1 with events := st1.events ++ [.modelInitE (mkLLM a)] } d with
  | ok st2 =>
    have hm : mainSt env a =
        ({ st2 with events := st2.events ++ [.doneE a.output_dir] }, .ok) := by
      simp [mainSt, hload, hne, hr]
    obtain ⟨he2, hf2, -⟩ := runLoop_ok env a _ _ _ _ _ hr
    refine ⟨d, [], by rw [List.append_nil], ?_, fun _ => rfl,
      Or.inl ⟨rfl, ?_⟩⟩
    · rw [hm]
      show st2.files = _
      rw [hf2]
      have hfz : ({ st1 with
          events := st1.events ++ [Event.modelInitE (mkLLM a)] } : St).files
          = [] := by
        show st1.files = []
        exact hstfiles
      rw [hfz, filesFold_eq_append env a _ _ d []
        (by intro x _ hc; simp [keysOf] at hc) (paths_nodup hknd),
        List.nil_append]
    · rw [hm]
      show st2.events ++ [Event.doneE a.output_dir] = _
      rw [he2]
      show ((st1.events ++ [Event.modelInitE (mkLLM a)]) ++ _) ++ _ = _
      rw [h1]
      simp [initSt, List.append_assoc]
  | error p2 =>
    obtain ⟨st2, e2⟩ := p2
    have hm : mainSt env a = (st2, .err e2) := by
      simp [mainSt, hload, hne, hr]
    obtain ⟨pre, x, post, hsplit, hokpre, he2, hf2⟩ :=
      runLoop_err env a _ _ _ _ _ _ hr
    have hprend : (keysOf pre).Nodup := by
      have hsub : pre.Sublist d := by
        rw [hsplit]
        exact List.sublist_append_left pre (x :: post)
      exact List.Nodup.sublist (hsub.map Prod.fst) hknd
    refine ⟨pre, x :: post, hsplit, ?_, ?_,
      Or.inr ⟨x, post, rfl, ⟨e2, by rw [hm]⟩, ?_⟩⟩
    · rw [hm]
      show st2.files = _
      rw [hf2]
      have hfz : ({ st1 with
          events := st1.events ++ [Event.modelInitE (mkLLM a)] } : St).files
          = [] := by
        show st1.files = []
        exact hstfiles
      rw [hfz, filesFold_eq_append env a _ _ pre []
        (by intro y _ hc; simp [keysOf] at hc) (paths_nodup hprend),
        List.nil_append]
    · rw [hm]
      intro hc
      exact absurd hc (by simp)
    · rw [hm]
      show st2.events = _
      rw [he2]
      show ((st1.events ++ [Event.modelInitE (mkLLM a)]) ++ _) ++ _ = _
      rw [h1]
      simp [initSt, List.append_assoc]

theorem c3_sequential_persistence_witness :
    loadPhase envWriteFail argsTwo.data_path (initSt argsTwo) []
      (datasetsToEval argsTwo) = .ok (stTwo, dTwo)
    ∧ ∃ pre rest, dTwo = pre ++ rest
        ∧ (main envWriteFail [] argsTwo).1.files =
            pre.map (entryFile envWriteFail argsTwo (mkLLM argsTwo)
              (mkSamplingParams argsTwo)) :=
  ⟨by rfl, by
    obtain ⟨pre, rest, hsplit, hfiles, -, -⟩ :=
      c3_sequential_persistence envWriteFail [] argsTwo stTwo dTwo
        (by rfl) rfl
    exact ⟨pre, rest, hsplit, hfiles⟩⟩

/-! ### Claim C9 -/

theorem loadCall_in_filter_map {names : List String} {x : String}
    (h : Event.loadCallE x ∈ (names.filter recognized).map Event.loadCallE) :
    x ∈ datasetNames := by
  rcases List.mem_map.mp h with ⟨m, hm, he⟩
  have hm2 := (List.mem_filter.mp hm).2
  rw [recognized_iff] at hm2
  have hmx : m = x := by simpa using he
  exact hmx ▸ hm2

/-- Claim C9: a loader call only ever happens for one of the six
recognized names (so unrecognized entries invoke no loader), every report
file belongs to a recognized dataset (so unrecognized entries produce no
report), and a request consisting only of unrecognized names takes the
no-op early return without any error. -/
theorem c9_unrecognized_ignored (env : Env) (fs0 : List String) (a : Args) :
    (∀ x, Event.loadCallE x ∈ (main env fs0 a).1.events → x ∈ datasetNames)
    ∧ (∀ p ∈ (main env fs0 a).1.files,
        ∃ dname ∈ datasetNames, p.1 = outputPath a dname)
    ∧ ((∀ m ∈ datasetsToEval a, m ∉ datasetNames) →
        (main env fs0 a).1.events =
          [Event.makedirsE a.output_dir, Event.noopNoticeE]
        ∧ (main env fs0 a).1.files = []
        ∧ (main env fs0 a).2.2 = .noop) := by
  refine ⟨?_, ?_, noop_run env fs0 a⟩
  · intro x hx
    rcases mainSt_branches env a with ⟨st, e, hl, hm⟩ | ⟨st, d, hl, he, hm⟩ |
      ⟨st, d, st2, hl, he, hr, hm⟩ | ⟨st, d, st2, e, hl, he, hr, hm⟩
    · obtain ⟨pre, n, post, msg, -, hn, -, -, -, h6, -⟩ :=
        loadPhase_err env a.data_path _ _ _ _ _ hl
      have hev : (main env fs0 a).1.events = (initSt a).events
          ++ (pre.filter recognized).map Event.loadCallE
          ++ [Event.loadCallE n] := by
        rw [main_eq, hm]
        exact h6
      rw [hev] at hx
      rcases List.mem_append.mp hx with hc | hc
      · rcases List.mem_append.mp hc with hc0 | hc0
        · rw [show (initSt a).events = [Event.makedirsE a.output_dir]
            from rfl, List.mem_singleton] at hc0
          exact absurd hc0 (by simp)
        · exact loadCall_in_filter_map hc0
      · rw [List.mem_singleton] at hc
        have hxn : x = n := by simpa using hc
        exact hxn ▸ hn
    · obtain ⟨h1, -, -, -⟩ := loadPhase_ok env a.data_path _ _ _ _ _ hl
      have hev : (main env fs0 a).1.events = ((initSt a).events
          ++ ((datasetsToEval a).filter recognized).map Event.loadCallE)
          ++ [Event.noopNoticeE] := by
        rw [main_eq, hm]
        show st.events ++ _ = _
        rw [h1]
      rw [hev] at hx
      rcases List.mem_append.mp hx with hc | hc
      · rcases List.mem_append.mp hc with hc0 | hc0
        · rw [show (initSt a).events = [Event.makedirsE a.output_dir]
            from rfl, List.mem_singleton] at hc0
          exact absurd hc0 (by simp)
        · exact loadCall_in_filter_map hc0
      · rw [List.mem_singleton] at hc
        exact absurd hc (by simp)
    · obtain ⟨E2, hev, hmem, -⟩ := main_events_decomp env fs0 a st d hl he
      rw [hev] at hx
      rcases List.mem_cons.mp hx with hc | hc
      · exact absurd hc (by simp)
      · rcases List.mem_append.mp hc with hc1 | hc1
        · exact loadCall_in_filter_map hc1
        · rcases List.mem_cons.mp hc1 with hc2 | hc2
          · exact absurd hc2 (by simp)
          · rcases hmem _ hc2 with ⟨ent, -, heq⟩ | ⟨q, r, heq⟩ | heq
            · exact absurd heq (by simp)
            · exact absurd heq (by simp)
            · exact absurd heq (by simp)
    · obtain ⟨E2, hev, hmem, -⟩ := main_events_decomp env fs0 a st d hl he
      rw [hev] at hx
      rcases List.mem_cons.mp hx with hc | hc
      · exact absurd hc (by simp)
      · rcases List.mem_append.mp hc with hc1 | hc1
        · exact loadCall_in_filter_map hc1
        · rcases List.mem_cons.mp hc1 with hc2 | hc2
          · exact absurd hc2 (by simp)
          · rcases hmem _ hc2 with ⟨ent, -, heq⟩ | ⟨q, r, heq⟩ | heq
            · exact absurd heq (by simp)
            · exact absurd heq (by simp)
            · exact absurd heq (by simp)
  · obtain ⟨entries, hsound, -, -, hfiles⟩ := main_files_shape env fs0 a
    intro p hp
    rw [hfiles] at hp
    rcases List.mem_map.mp hp with ⟨e, he, hpe⟩
    subst hpe
    exact ⟨e.1, (hsound e he).1, rfl⟩

theorem c9_unrecognized_ignored_witness :
    Event.loadCallE "geo3k" ∈ (main envAllOk [] argsMix).1.events
    ∧ "geo3k" ∈ datasetNames :=
  ⟨by decide,
   (c9_unrecognized_ignored envAllOk [] argsMix).1 "geo3k" (by decide)⟩

/-! ### Claim C10 -/

/-- Claim C10: a recognized, requested dataset whose loader returns an
empty sample list is still evaluated: the no-op early return is not taken
(the emptiness check is on the samples dict, which holds the entry), the
engine is constructed, generation is invoked on the empty prompt list,
and its report — with an empty results array — is written. -/
theorem c10_empty_dataset_still_evaluated (env : Env) (fs0 : List String)
    (a : Args) (st1 : St) (d : List (String × List Sample)) (n : String)
    (hload : loadPhase env a.data_path (initSt a) [] (datasetsToEval a)
      = .ok (st1, d))
    (hreq : n ∈ datasetsToEval a)
    (hrec : n ∈ datasetNames)
    (hempty : env.load n a.data_path = .ok [])
    (hall : ∀ e ∈ d, entryOk env a (mkLLM a) (mkSamplingParams a) e) :
    (main env fs0 a).2.2 = .ok
    ∧ Event.modelInitE (mkLLM a) ∈ (main env fs0 a).1.events
    ∧ Event.generateE (mkLLM a) n [] (mkSamplingParams a)
        ∈ (main env fs0 a).1.events
    ∧ (outputPath a n,
        reportOf a n [] (genOuts env (mkLLM a) (mkSamplingParams a) []))
        ∈ (main env fs0 a).1.files
    ∧ (reportOf a n []
        (genOuts env (mkLLM a) (mkSamplingParams a) [])).results = [] := by
  obtain ⟨h1, h2, hkeys, hsound⟩ := loadPhase_ok env a.data_path _ _ _ _ _ hload
  have hnk : n ∈ keysOf d := by
    rw [hkeys]
    exact mem_loadKeys_of_mem _ _ hreq hrec
  obtain ⟨p, hpd, hp1⟩ : ∃ p ∈ d, p.1 = n := by
    rcases List.mem_map.mp hnk with ⟨p, hp, hfst⟩
    exact ⟨p, hp, hfst⟩
  have hp2 : p.2 = [] := by
    rcases hsound p hpd with hc | ⟨-, hok2⟩
    · exact absurd hc (List.not_mem_nil p)
    · rw [hp1, hempty] at hok2
      exact (Except.ok.inj hok2).symm
  have hpn : p = (n, []) := by
    rcases p with ⟨pa, pb⟩
    simp only at hp1 hp2
    rw [hp1, hp2]
  rw [hpn] at hpd
  have hne : d.isEmpty = false := by
    cases d with
    | nil => exact absurd hpd (List.not_mem_nil _)
    | cons _ _ => rfl
  obtain ⟨st2, hr⟩ := runLoop_ok_of_entryOk env a (mkLLM a)
    (mkSamplingParams a) d
    { st1 with events := st1.events ++ [.modelInitE (mkLLM a)] } hall
  rw [main_eq]
  have hm : mainSt env a =
      ({ st2 with events := st2.events ++ [.doneE a.output_dir] }, .ok) := by
    simp [mainSt, hload, hne, hr]
  obtain ⟨he2, hf2, -⟩ := runLoop_ok env a _ _ _ _ _ hr
  have hstfiles : st1.files = [] := by rw [h2]; rfl
  have hknd : (keysOf d).Nodup := by
    rw [hkeys]
    exact loadKeys_nodup _ _ List.nodup_nil
  have hfiles : (mainSt env a).1.files =
      d.map (entryFile env a (mkLLM a) (mkSamplingParams a)) := by
    rw [hm]
    show st2.files = _
    rw [hf2]
    have hfz : ({ st1 with
        events := st1.events ++ [Event.modelInitE (mkLLM a)] } : St).files
        = [] := by
      show st1.files = []
      exact hstfiles
    rw [hfz, filesFold_eq_append env a _ _ d []
      (by intro x _ hc; simp [keysOf] at hc) (paths_nodup hknd),
      List.nil_append]
  refine ⟨by rw [hm], ?_, ?_, ?_, ?_⟩
  · rw [hm]
    show Event.modelInitE (mkLLM a) ∈ st2.events ++ [Event.doneE a.output_dir]
    rw [he2]
    apply List.mem_append.mpr
    left
    apply List.mem_append.mpr
    left
    show Event.modelInitE (mkLLM a)
      ∈ st1.events ++ [Event.modelInitE (mkLLM a)]
    exact List.mem_append.mpr (Or.inr (List.mem_singleton_self _))
  · rw [hm]
    show _ ∈ st2.events ++ [Event.doneE a.output_dir]
    rw [he2]
    apply List.mem_append.mpr
    left
    apply List.mem_append.mpr
    right
    apply List.mem_flatten.mpr
    refine ⟨entryBlock env a (mkLLM a) (mkSamplingParams a) (n, []),
      List.mem_map_of_mem _ hpd, ?_⟩
    rw [entryBlock]
    exact List.mem_cons_self _ _
  · rw [hfiles]
    exact List.mem_map_of_mem _ hpd
  · show process_outputs (genOuts env (mkLLM a) (mkSamplingParams a) [])
      (prepare_prompts n [] a).2 a.eval_threads = []
    rw [process_outputs]
    exact List.zipWith_nil_right

theorem c10_empty_dataset_still_evaluated_witness :
    loadPhase envEmptyGeo argsOne.data_path (initSt argsOne) []
      (datasetsToEval argsOne) = .ok (stOne, dEmpty)
    ∧ (main envEmptyGeo [] argsOne).2.2 = .ok
    ∧ (reportOf argsOne "geo3k" []
        (genOuts envEmptyGeo (mkLLM argsOne)
          (mkSamplingParams argsOne) [])).results = [] := by
  have h := c10_empty_dataset_still_evaluated envEmptyGeo [] argsOne stOne
    dEmpty "geo3k" (by rfl) (by decide) (by decide) (by rfl)
    (by
      intro e he
      rw [dEmpty, List.mem_singleton] at he
      subst he
      exact ⟨⟨_, rfl⟩, rfl⟩)
  exact ⟨by rfl, h.1, h.2.2.2.2⟩

end NoisyRollout
